import Mathlib

/-!
Verification of the `worlds-end` game engine (GameEngine, terrain oracle,
A* pathfinder, blocking-wall heuristic, economy operations).

Modelling conventions:
* The source computes with IEEE doubles.  All arithmetic that the source
  performs with `+ - * /`, comparisons and `Math.floor` / `Math.round` /
  `Math.abs` on decimal literals is modelled exactly over `ℚ`.
* `Math.sqrt`, `Math.sin`, `Math.cos` are real-valued transcendental
  functions.  Where only their values feed further arithmetic (movement
  normalisation, path-length sums) they are modelled as an arbitrary
  oracle parameter, so a theorem quantified over all oracles covers the
  real functions.  Where a claim is about the transcendental comparison
  itself (the terrain oracle of C7) the model uses `Real.sqrt`,
  `Real.sin`, `Real.cos` directly.
* JS `Map` / `Record` objects are modelled as association lists or
  functions, JS `undefined`-able fields as `Option`, and JS truthiness
  of numbers/strings (`0`, `""`, `undefined` falsy) explicitly.
-/

namespace WorldsEnd

/-! ## Tile grid (GameEngine.findPath operates on integer tiles) -/

/-- An integer tile of the 64x64 grid (`Math.floor` of a world coordinate). -/
abbrev Tile := ℤ × ℤ

/-- `MAP_SIZE` from constants.ts. -/
def MAP_SIZE : ℤ := 64

/-- The 8-directional neighbour offsets, in the order they appear in
`GameEngine.findPath`. -/
def neighborOffsets : List Tile :=
  [(1,0), (-1,0), (0,1), (0,-1), (1,1), (1,-1), (-1,1), (-1,-1)]

/-- Two tiles are adjacent when their difference is one of the eight
neighbour offsets. -/
def adjacent8 (a b : Tile) : Bool :=
  neighborOffsets.contains (b.1 - a.1, b.2 - a.2)

/-- Step cost of moving by offset `d`: source line
`(n.x === 0 || n.y === 0) ? 1 : 1.4`. -/
def stepCost (d : Tile) : ℚ :=
  if d.1 = 0 ∨ d.2 = 0 then 1 else 7/5

/-- Step cost between two adjacent tiles. -/
def stepCostBetween (a b : Tile) : ℚ :=
  stepCost (b.1 - a.1, b.2 - a.2)

/-- The pathfinder heuristic: Manhattan distance,
`Math.abs(a.x - b.x) + Math.abs(a.y - b.y)`. -/
def manhattan (a b : Tile) : ℤ :=
  |a.1 - b.1| + |a.2 - b.2|

/-- A list of tiles in which every consecutive pair is one 8-directional
adjacency step. -/
def isStepPath : List Tile → Bool
  | [] => true
  | [_] => true
  | a :: b :: rest => adjacent8 a b && isStepPath (b :: rest)

/-- Total cost of a tile path under the pathfinder cost model. -/
def pathCost : List Tile → ℚ
  | [] => 0
  | [_] => 0
  | a :: b :: rest => stepCostBetween a b + pathCost (b :: rest)

/-- Claim C2 as stated: the Manhattan heuristic never exceeds the cost of
any 8-directional path between two tiles. -/
def HeuristicAdmissible : Prop :=
  ∀ (p : List Tile) (a b : Tile), p.head? = some a → p.getLast? = some b →
    isStepPath p = true → (manhattan a b : ℚ) ≤ pathCost p

lemma adjacent8_cases {a b : Tile} (h : adjacent8 a b = true) :
    (b.1 - a.1, b.2 - a.2) ∈ neighborOffsets := by
  simpa [adjacent8] using h

lemma step_bound {a b : Tile} (h : adjacent8 a b = true) :
    (7 * manhattan a b : ℚ) ≤ 10 * stepCostBetween a b := by
  have hmem := adjacent8_cases h
  simp only [neighborOffsets, List.mem_cons, List.not_mem_nil, or_false,
    Prod.mk.injEq] at hmem
  simp only [manhattan, stepCostBetween, stepCost]
  rw [abs_sub_comm a.1 b.1, abs_sub_comm a.2 b.2]
  rcases hmem with ⟨h1, h2⟩ | ⟨h1, h2⟩ | ⟨h1, h2⟩ | ⟨h1, h2⟩ |
    ⟨h1, h2⟩ | ⟨h1, h2⟩ | ⟨h1, h2⟩ | ⟨h1, h2⟩ <;>
    rw [h1, h2] <;> norm_num

lemma manhattan_triangle (a b c : Tile) :
    manhattan a c ≤ manhattan a b + manhattan b c := by
  unfold manhattan
  have h1 : |a.1 - c.1| ≤ |a.1 - b.1| + |b.1 - c.1| := by
    calc |a.1 - c.1| = |(a.1 - b.1) + (b.1 - c.1)| := by ring_nf
    _ ≤ |a.1 - b.1| + |b.1 - c.1| := abs_add _ _
  have h2 : |a.2 - c.2| ≤ |a.2 - b.2| + |b.2 - c.2| := by
    calc |a.2 - c.2| = |(a.2 - b.2) + (b.2 - c.2)| := by ring_nf
    _ ≤ |a.2 - b.2| + |b.2 - c.2| := abs_add _ _
  omega

lemma pathCost_bound (p : List Tile) : ∀ (a b : Tile), p.head? = some a →
    p.getLast? = some b → isStepPath p = true →
    (7 * manhattan a b : ℚ) ≤ 10 * pathCost p := by
  induction p with
  | nil => intro a b ha _ _; simp at ha
  | cons c rest ih =>
    intro a b ha hb hstep
    have hca : c = a := by simpa using ha
    subst hca
    cases rest with
    | nil =>
      have hcb : c = b := by simpa using hb
      subst hcb
      simp [manhattan, pathCost]
    | cons d rest2 =>
      have hstep' : adjacent8 c d = true ∧ isStepPath (d :: rest2) = true := by
        simpa [isStepPath, Bool.and_eq_true] using hstep
      have hlast : (d :: rest2).getLast? = some b := by
        rw [List.getLast?_cons_cons] at hb
        exact hb
      have hmain := ih d b rfl hlast hstep'.2
      have h1 := step_bound hstep'.1
      have htri : (7 * manhattan c b : ℚ) ≤ 7 * manhattan c d + 7 * manhattan d b := by
        have h2 := manhattan_triangle c d b
        have h3 : (manhattan c b : ℚ) ≤ (manhattan c d : ℚ) + (manhattan d b : ℚ) := by
          exact_mod_cast h2
        linarith
      have hcost : pathCost (c :: d :: rest2) =
          stepCostBetween c d + pathCost (d :: rest2) := rfl
      rw [hcost]
      linarith

/-- C2 counterexample: a single diagonal step from `(0,0)` to `(1,1)` is a
valid 8-directional path of cost `1.4`, yet the Manhattan distance between
its endpoints is `2 > 1.4`.  The heuristic is therefore not admissible for
this cost model: the claim, as stated, is false. -/
theorem c2_counterexample : ¬ HeuristicAdmissible := by
  intro h
  have := h [((0:ℤ),(0:ℤ)), ((1:ℤ),(1:ℤ))] (0,0) (1,1) rfl rfl (by decide)
  have hm : manhattan ((0:ℤ),(0:ℤ)) (1,1) = 2 := by decide
  have hc : pathCost [((0:ℤ),(0:ℤ)), ((1:ℤ),(1:ℤ))] = 7/5 := by
    norm_num [pathCost, stepCostBetween, stepCost]
  rw [hm, hc] at this
  norm_num at this

/-- C2 amended: the Manhattan heuristic is not admissible, but it
overestimates by at most a factor `10/7`: for every pair of tiles and every
8-directional path between them, `0.7 *` the Manhattan distance is a lower
bound on the path cost (equivalently `7 * manhattan ≤ 10 * cost`). -/
theorem c2_heuristic_bound (p : List Tile) (a b : Tile)
    (ha : p.head? = some a) (hb : p.getLast? = some b)
    (hstep : isStepPath p = true) :
    (7 * manhattan a b : ℚ) ≤ 10 * pathCost p :=
  pathCost_bound p a b ha hb hstep

/-- Witness for C2: the amended bound evaluated on the concrete diagonal
one-step path. -/
theorem c2_witness :
    (7 * manhattan ((0:ℤ),(0:ℤ)) (1,1) : ℚ) ≤
      10 * pathCost [((0:ℤ),(0:ℤ)), ((1:ℤ),(1:ℤ))] :=
  c2_heuristic_bound [((0:ℤ),(0:ℤ)), ((1:ℤ),(1:ℤ))] (0,0) (1,1) rfl rfl (by decide)

/-! ## Terrain oracle over the reals (GameEngine.isValidTerrain, claim C7)

The band test uses `Math.sin`/`Math.cos`, so this model uses `Real.sin`,
`Real.cos` and `Real.sqrt` directly. -/

/-- Euclidean distance, `getDistance` from utils/isometric.ts. -/
noncomputable def distR (a b : ℝ × ℝ) : ℝ :=
  Real.sqrt ((a.1 - b.1) ^ 2 + (a.2 - b.2) ^ 2)

/-- `GameEngine.isValidTerrain`: in bounds, and either within distance 8 of
one of the three hardcoded anchors `(10,54)`, `(20,44)`, `(54,10)`, or inside
the noise-perturbed diagonal band. -/
def isValidTerrainR (x y : ℝ) : Prop :=
  (0 ≤ x ∧ x < 64 ∧ 0 ≤ y ∧ y < 64) ∧
    (distR (x, y) (10, 54) < 8 ∨ distR (x, y) (20, 44) < 8 ∨
      distR (x, y) (54, 10) < 8 ∨
      |x + y - 64| < 14 + (Real.sin (x * 0.15) * 6 + Real.cos (y * 0.15) * 6))

/-- `BASE_POSITIONS` from GameEngine: the anchor of player `i+1`'s base is
entry `i`. -/
def BASE_POSITIONS : List (ℝ × ℝ) :=
  [(10, 54), (20, 44), (8, 44), (18, 54), (12, 48), (22, 50), (6, 50), (16, 42)]

/-- The enemy base anchor `(54, 10)` from `createInitialState`. -/
def enemyBasePos : ℝ × ℝ := (54, 10)

/-- Claim C7 as stated: for every session size 1..8 and every base anchor of
that session (the first `n` player anchors and the enemy anchor), every
in-bounds point within distance 8 of the anchor is valid terrain. -/
def TerrainSafeNearBases : Prop :=
  ∀ n : ℕ, 1 ≤ n → n ≤ 8 →
    ∀ anchor ∈ BASE_POSITIONS.take n ++ [enemyBasePos],
      ∀ x y : ℝ, 0 ≤ x → x < 64 → 0 ≤ y → y < 64 →
        distR (x, y) anchor < 8 → isValidTerrainR x y

lemma sin_3_6_nonpos : Real.sin 3.6 ≤ 0 := by
  have hgt := Real.pi_gt_d4
  have hlt := Real.pi_lt_d4
  have h := Real.sin_sub_two_pi 3.6
  rw [← h]
  apply Real.sin_nonpos_of_nonnpos_of_neg_pi_le
  · norm_num at hgt ⊢; linarith
  · norm_num at hlt ⊢; linarith

lemma cos_8_7_nonpos : Real.cos 8.7 ≤ 0 := by
  have hgt := Real.pi_gt_d4
  have hlt := Real.pi_lt_d4
  have h := Real.cos_sub_two_pi 8.7
  rw [← h]
  apply Real.cos_nonpos_of_pi_div_two_le_of_le
  · norm_num at hlt ⊢; linarith
  · norm_num at hgt ⊢; linarith

/-- C7 counterexample: in a 4-player session, player 4's base anchor is
`(18,54)`, and the in-bounds point `(24,58)` is within distance 8 of it
(`√52 < 8`), yet `isValidTerrain` rejects it: the point is at least 8 away
from each of the three hardcoded anchors, and its diagonal offset 18 falls
outside the noise band, whose width at this point is at most 14 because
`sin(24·0.15) ≤ 0` and `cos(58·0.15) ≤ 0`.  The claim, as stated, is false:
only the first two player anchors and the enemy anchor are protected. -/
theorem c7_counterexample : ¬ TerrainSafeNearBases := by
  intro h
  have hmem : ((18 : ℝ), (54 : ℝ)) ∈ BASE_POSITIONS.take 4 ++ [enemyBasePos] := by
    simp [BASE_POSITIONS, enemyBasePos]
  have hdist : distR ((24 : ℝ), (58 : ℝ)) (18, 54) < 8 := by
    unfold distR
    rw [Real.sqrt_lt' (by norm_num : (0:ℝ) < 8)]
    norm_num
  have hvalid := h 4 (by norm_num) (by norm_num) (18, 54) hmem 24 58
    (by norm_num) (by norm_num) (by norm_num) (by norm_num) hdist
  obtain ⟨-, hdisj⟩ := hvalid
  have h1 : ¬ distR ((24 : ℝ), (58 : ℝ)) (10, 54) < 8 := by
    unfold distR
    simp only [not_lt]
    rw [Real.le_sqrt' (by norm_num : (0:ℝ) < 8)]
    norm_num
  have h2 : ¬ distR ((24 : ℝ), (58 : ℝ)) (20, 44) < 8 := by
    unfold distR
    simp only [not_lt]
    rw [Real.le_sqrt' (by norm_num : (0:ℝ) < 8)]
    norm_num
  have h3 : ¬ distR ((24 : ℝ), (58 : ℝ)) (54, 10) < 8 := by
    unfold distR
    simp only [not_lt]
    rw [Real.le_sqrt' (by norm_num : (0:ℝ) < 8)]
    norm_num
  have h4 : ¬ |(24 : ℝ) + 58 - 64| <
      14 + (Real.sin (24 * 0.15) * 6 + Real.cos (58 * 0.15) * 6) := by
    have e1 : (24 : ℝ) * 0.15 = 3.6 := by norm_num
    have e2 : (58 : ℝ) * 0.15 = 8.7 := by norm_num
    rw [e1, e2]
    have hs := sin_3_6_nonpos
    have hc := cos_8_7_nonpos
    have habs : |(24 : ℝ) + 58 - 64| = 18 := by norm_num
    rw [habs]
    push_neg
    nlinarith
  tauto

/-- C7 amended: the always-valid guarantee holds only for the three anchors
hardcoded in `isValidTerrain` — player 1's base `(10,54)`, player 2's base
`(20,44)` and the enemy base `(54,10)`.  Every in-bounds point within
distance 8 of one of those three anchors is valid terrain; for the bases of
players 3 through 8 the guarantee fails (see the counterexample). -/
theorem c7_terrain_near_hardcoded_anchors (x y : ℝ)
    (hx0 : 0 ≤ x) (hx1 : x < 64) (hy0 : 0 ≤ y) (hy1 : y < 64)
    (hnear : distR (x, y) (10, 54) < 8 ∨ distR (x, y) (20, 44) < 8 ∨
      distR (x, y) (54, 10) < 8) :
    isValidTerrainR x y := by
  refine ⟨⟨hx0, hx1, hy0, hy1⟩, ?_⟩
  tauto

/-- Witness for C7: the amended theorem applied at player 1's anchor itself. -/
theorem c7_witness : isValidTerrainR 10 54 := by
  apply c7_terrain_near_hardcoded_anchors 10 54 (by norm_num) (by norm_num)
    (by norm_num) (by norm_num)
  left
  unfold distR
  rw [Real.sqrt_lt' (by norm_num : (0:ℝ) < 8)]
  norm_num

/-! ## Engine data model (types.ts), over exact rationals -/

/-- `EntityType` from types.ts. -/
inductive EType
  | UNIT | ZOMBIE | BASE | HOUSE | ENEMY_BASE | MINE | WALL
deriving DecidableEq, Repr

/-- `Entity` from types.ts.  Optional TS fields are `Option`. -/
structure Entity where
  id : String
  type : EType
  x : ℚ
  y : ℚ
  hp : ℚ
  maxHp : ℚ
  radius : ℚ
  ownerId : String
  targetId : Option String := none
  attackCooldown : Option ℚ := none
  lastAttackerId : Option String := none
  vx : Option ℚ := none
  vy : Option ℚ := none
  facing : Option ℚ := none
  path : Option (List (ℚ × ℚ)) := none
  pathIndex : Option ℕ := none
  pathCooldown : Option ℚ := none
  damage : Option ℚ := none
  range : Option ℚ := none
  speed : Option ℚ := none
  unitType : Option String := none
deriving DecidableEq, Repr

/-- `PlayerState` from types.ts. -/
structure PlayerState where
  id : String
  name : String
  gold : ℚ
  currentPop : ℤ
  maxPop : ℤ
  basePosition : ℚ × ℚ
  color : String
  defeated : Bool
deriving DecidableEq, Repr

/-- `GameState` from types.ts.  The `players` record (a JS object with
unique string keys) is an association list in insertion order. -/
structure GameState where
  players : List (String × PlayerState)
  entities : List Entity
  lastTick : ℤ
  gameOver : Bool
  winner : Option String
  waveNumber : ℤ
  playerCount : Option ℤ := none
deriving DecidableEq, Repr

/-- `this.state.players[pid]` — record lookup. -/
def lookupPlayer (ps : List (String × PlayerState)) (pid : String) :
    Option PlayerState :=
  (ps.find? (fun q => q.1 == pid)).map Prod.snd

/-- In-place mutation of the player object stored under key `pid`. -/
def setPlayer (ps : List (String × PlayerState)) (pid : String)
    (f : PlayerState → PlayerState) : List (String × PlayerState) :=
  ps.map (fun q => if q.1 == pid then (q.1, f q.2) else q)

/-- JS truthiness of an optional number (`undefined` and `0` are falsy). -/
def numTruthy : Option ℚ → Bool
  | none => false
  | some q => q != 0

/-- JS truthiness of an optional string (`undefined` and `""` are falsy). -/
def strTruthy : Option String → Bool
  | none => false
  | some s => s != ""

/-- JS `v || d` for an optional numeric field. -/
def orElseNum (v : Option ℚ) (d : ℚ) : ℚ :=
  match v with
  | some q => if q = 0 then d else q
  | none => d

/-- JS `v ?? d` for an optional numeric field. -/
def coalesceNum (v : Option ℚ) (d : ℚ) : ℚ :=
  match v with
  | some q => q
  | none => d

/-! ## Constants (constants.ts) and unit stats -/

/-- `ZOMBIE_BOUNTY` from constants.ts. -/
def ZOMBIE_BOUNTY : ℚ := 10

/-- `BUILD_RADIUS` from constants.ts. -/
def BUILD_RADIUS : ℚ := 8

/-- `MINE_COST` from constants.ts. -/
def MINE_COST : ℚ := 250

/-- `WALL_COST` from constants.ts. -/
def WALL_COST : ℚ := 30

/-- The keys of `UNIT_TYPES`. -/
inductive UnitTypeKey
  | SOLDIER | TANK
deriving DecidableEq, Repr

/-- One entry of `UNIT_TYPES`. -/
structure UnitStats where
  name : String
  cost : ℚ
  hp : ℚ
  damage : ℚ
  speed : ℚ
  range : ℚ
  radius : ℚ
deriving DecidableEq, Repr

/-- `UNIT_TYPES` from constants.ts (Soldier 20g, Tank 60g). -/
def UNIT_TYPES : UnitTypeKey → UnitStats
  | .SOLDIER => ⟨"Soldier", 20, 50, 10, 2, 3/2, 3/10⟩
  | .TANK => ⟨"Tank", 60, 300, 25, 1, 11/10, 1/2⟩

/-- String name of a `UNIT_TYPES` key (stored in `Entity.unitType`). -/
def unitKeyName : UnitTypeKey → String
  | .SOLDIER => "SOLDIER"
  | .TANK => "TANK"

/-! ## Numeric oracle

The engine computes with IEEE doubles; `Math.sqrt` values feed further
arithmetic (movement normalisation, path-length sums) and
`isValidTerrain`'s band test uses `Math.sin`/`Math.cos`.  Both are modelled
as arbitrary parameters: a theorem quantified over every `Oracle` in
particular covers the real square root and the real terrain oracle.
`pathFuel` bounds the A* iteration count (the source loop is unbounded;
claim C9 shows a finite fuel always suffices). -/
structure Oracle where
  sqrt : ℚ → ℚ
  validTerrain : ℚ → ℚ → Bool
  pathFuel : ℕ

/-- `getDistance` from utils/isometric.ts, with the oracle square root. -/
def getDistanceO (o : Oracle) (a b : ℚ × ℚ) : ℚ :=
  o.sqrt ((a.1 - b.1) ^ 2 + (a.2 - b.2) ^ 2)

/-- Distance between two entities (`getDistance(e1, e2)`). -/
def distE (o : Oracle) (e1 e2 : Entity) : ℚ :=
  getDistanceO o (e1.x, e1.y) (e2.x, e2.y)

/-! ## Economy operations (GameEngine.spawnUnit / buildHouse / buildMine /
buildWall) -/

/-- `snapToTileCoord`: `Math.round(v - 0.5) + 0.5`; JS `Math.round` rounds
half toward `+∞`, as Mathlib `round` does. -/
def snapToTileCoord (v : ℚ) : ℚ := ((round (v - 1/2) : ℤ) : ℚ) + 1/2

/-- The unit entity pushed by `spawnUnit`; `newId` models `generateId()`
and `off` the random ring offset `(2cosθ, 2sinθ)`. -/
def mkUnitEntity (playerId : String) (key : UnitTypeKey) (newId : String)
    (off : ℚ × ℚ) (player : PlayerState) : Entity :=
  let unitStats := UNIT_TYPES key
  { id := newId, type := .UNIT,
    x := player.basePosition.1 + off.1,
    y := player.basePosition.2 + off.2,
    hp := unitStats.hp, maxHp := unitStats.hp,
    radius := unitStats.radius, ownerId := playerId,
    damage := some unitStats.damage, range := some unitStats.range,
    speed := some unitStats.speed, unitType := some (unitKeyName key),
    attackCooldown := some 0 }

/-- `GameEngine.spawnUnit`. -/
def spawnUnit (s : GameState) (playerId : String) (key : UnitTypeKey)
    (newId : String) (off : ℚ × ℚ) : GameState :=
  match lookupPlayer s.players playerId with
  | none => s
  | some player =>
    if player.defeated then s
    else if (UNIT_TYPES key).cost ≤ player.gold ∧
        player.currentPop < player.maxPop then
      { s with
        players := setPlayer s.players playerId (fun p =>
          { p with gold := p.gold - (UNIT_TYPES key).cost,
                   currentPop := p.currentPop + 1 }),
        entities := s.entities ++ [mkUnitEntity playerId key newId off player] }
    else s

/-- The `occupied` test shared by the build operations:
`Math.abs(e.x - sx) < 0.8 && Math.abs(e.y - sy) < 0.8` for some entity. -/
def occupiedAt (entities : List Entity) (sx sy : ℚ) : Bool :=
  entities.any (fun e => |e.x - sx| < 4/5 ∧ |e.y - sy| < 4/5)

/-- `GameEngine.buildHouse`. -/
def buildHouse (o : Oracle) (s : GameState) (playerId : String) (x y : ℚ)
    (newId : String) : GameState :=
  match lookupPlayer s.players playerId with
  | none => s
  | some player =>
    if player.defeated then s
    else
      let houseCost : ℚ := 50
      let sx := snapToTileCoord x
      let sy := snapToTileCoord y
      let dist := getDistanceO o (sx, sy) player.basePosition
      let occupied := occupiedAt s.entities sx sy
      if houseCost ≤ player.gold ∧ dist ≤ BUILD_RADIUS ∧ occupied = false ∧
          o.validTerrain sx sy = true then
        { s with
          players := setPlayer s.players playerId (fun p =>
            { p with gold := p.gold - houseCost, maxPop := p.maxPop + 5 }),
          entities := s.entities ++
            [{ id := newId, type := .HOUSE, x := sx, y := sy, hp := 100,
               maxHp := 100, radius := 1, ownerId := playerId }] }
      else s

/-- `GameEngine.buildMine`. -/
def buildMine (o : Oracle) (s : GameState) (playerId : String) (x y : ℚ)
    (newId : String) : GameState :=
  match lookupPlayer s.players playerId with
  | none => s
  | some player =>
    if player.defeated then s
    else
      let sx := snapToTileCoord x
      let sy := snapToTileCoord y
      let dist := getDistanceO o (sx, sy) player.basePosition
      let occupied := occupiedAt s.entities sx sy
      if MINE_COST ≤ player.gold ∧ dist ≤ BUILD_RADIUS ∧ occupied = false ∧
          o.validTerrain sx sy = true then
        { s with
          players := setPlayer s.players playerId (fun p =>
            { p with gold := p.gold - MINE_COST }),
          entities := s.entities ++
            [{ id := newId, type := .MINE, x := sx, y := sy, hp := 150,
               maxHp := 150, radius := 1, ownerId := playerId }] }
      else s

/-- `GameEngine.buildWall` (no `BUILD_RADIUS` restriction). -/
def buildWall (o : Oracle) (s : GameState) (playerId : String) (x y : ℚ)
    (newId : String) : GameState :=
  match lookupPlayer s.players playerId with
  | none => s
  | some player =>
    if player.defeated then s
    else
      let sx := snapToTileCoord x
      let sy := snapToTileCoord y
      let occupied := occupiedAt s.entities sx sy
      if WALL_COST ≤ player.gold ∧ occupied = false ∧
          o.validTerrain sx sy = true then
        { s with
          players := setPlayer s.players playerId (fun p =>
            { p with gold := p.gold - WALL_COST }),
          entities := s.entities ++
            [{ id := newId, type := .WALL, x := sx, y := sy, hp := 200,
               maxHp := 200, radius := 4/5, ownerId := playerId }] }
      else s

lemma lookup_setPlayer (ps : List (String × PlayerState)) (pid : String)
    (f : PlayerState → PlayerState) :
    lookupPlayer (setPlayer ps pid f) pid = (lookupPlayer ps pid).map f := by
  induction ps with
  | nil => rfl
  | cons r rest ih =>
    simp only [setPlayer, List.map_cons]
    by_cases h : (r.1 == pid) = true
    · have hr : r.1 = pid := by simpa using h
      rw [if_pos h]
      simp [lookupPlayer, hr]
    · have hb : (r.1 == pid) = false := by simpa using h
      rw [if_neg h]
      simp only [lookupPlayer, List.find?_cons_of_neg, hb, Bool.false_eq_true,
        not_false_eq_true]
      simpa only [lookupPlayer, setPlayer] using ih

lemma lookup_setPlayer_ne (ps : List (String × PlayerState)) (pid q : String)
    (f : PlayerState → PlayerState) (hne : q ≠ pid) :
    lookupPlayer (setPlayer ps pid f) q = lookupPlayer ps q := by
  induction ps with
  | nil => rfl
  | cons r rest ih =>
    simp only [setPlayer, List.map_cons]
    by_cases h : (r.1 == pid) = true
    · have hr : r.1 = pid := by simpa using h
      have hrq : (r.1 == q) = false := by
        simp only [beq_eq_false_iff_ne, ne_eq, hr]
        intro hc
        exact hne hc.symm
      rw [if_pos h]
      simp only [lookupPlayer, List.find?_cons_of_neg, hrq, Bool.false_eq_true,
        not_false_eq_true]
      simpa only [lookupPlayer, setPlayer] using ih
    · rw [if_neg h]
      by_cases hq : (r.1 == q) = true
      · simp only [lookupPlayer, List.find?_cons_of_pos, hq]
      · have hbq : (r.1 == q) = false := by simpa using hq
        simp only [lookupPlayer, List.find?_cons_of_neg, hbq, Bool.false_eq_true,
          not_false_eq_true]
        simpa only [lookupPlayer, setPlayer] using ih

/-- Claim C3: `spawnUnit` with an existing, non-defeated player with enough
gold and population headroom deducts exactly the unit cost, increments the
population by exactly one and appends exactly one unit entity (leaving every
other player untouched); in every other case it is a silent no-op that
returns the state unchanged. -/
theorem c3_spawnUnit_spec (s : GameState) (pid : String) (key : UnitTypeKey)
    (newId : String) (off : ℚ × ℚ) :
    (∀ p, lookupPlayer s.players pid = some p → p.defeated = false →
      (UNIT_TYPES key).cost ≤ p.gold → p.currentPop < p.maxPop →
      (mkUnitEntity pid key newId off p).type = .UNIT ∧
      (spawnUnit s pid key newId off).entities =
        s.entities ++ [mkUnitEntity pid key newId off p] ∧
      lookupPlayer (spawnUnit s pid key newId off).players pid =
        some { p with gold := p.gold - (UNIT_TYPES key).cost,
                      currentPop := p.currentPop + 1 } ∧
      (∀ q, q ≠ pid → lookupPlayer (spawnUnit s pid key newId off).players q =
        lookupPlayer s.players q)) ∧
    (lookupPlayer s.players pid = none → spawnUnit s pid key newId off = s) ∧
    (∀ p, lookupPlayer s.players pid = some p →
      (p.defeated = true ∨ p.gold < (UNIT_TYPES key).cost ∨
        p.maxPop ≤ p.currentPop) →
      spawnUnit s pid key newId off = s) := by
  refine ⟨?_, ?_, ?_⟩
  · intro p hp hdef hgold hpop
    have hcond : (UNIT_TYPES key).cost ≤ p.gold ∧ p.currentPop < p.maxPop :=
      ⟨hgold, hpop⟩
    refine ⟨rfl, ?_, ?_, ?_⟩
    · simp [spawnUnit, hp, hdef, hcond]
    · simp only [spawnUnit, hp, hdef, Bool.false_eq_true, if_false,
        if_pos hcond]
      rw [lookup_setPlayer, hp]
      simp [hdef]
    · intro q hq
      simp only [spawnUnit, hp, hdef, Bool.false_eq_true, if_false,
        if_pos hcond]
      exact lookup_setPlayer_ne s.players pid q _ hq
  · intro hnone
    simp [spawnUnit, hnone]
  · intro p hp hfail
    rcases hfail with hdef | hgold | hpop
    · simp [spawnUnit, hp, hdef]
    · have : ¬ ((UNIT_TYPES key).cost ≤ p.gold ∧ p.currentPop < p.maxPop) := by
        intro ⟨h1, _⟩; linarith
      cases hd : p.defeated <;> simp [spawnUnit, hp, hd, this]
    · have : ¬ ((UNIT_TYPES key).cost ≤ p.gold ∧ p.currentPop < p.maxPop) := by
        intro ⟨_, h2⟩; omega
      cases hd : p.defeated <;> simp [spawnUnit, hp, hd, this]

/-- A tiny concrete session used by several witnesses: one player `p1` with
100 gold, an empty entity list. -/
def witnessPlayer : PlayerState :=
  { id := "p1", name := "Player 1", gold := 100, currentPop := 0, maxPop := 5,
    basePosition := (10, 54), color := "#3b82f6", defeated := false }

/-- A minimal game state for witnesses. -/
def witnessState : GameState :=
  { players := [("p1", witnessPlayer)], entities := [], lastTick := 0,
    gameOver := false, winner := none, waveNumber := 1, playerCount := some 1 }

/-- Witness for C3: spawning a soldier in the concrete session appends the
unit and leaves 80 gold / population 1. -/
theorem c3_witness :
    (spawnUnit witnessState "p1" .SOLDIER "u1" (2, 0)).entities =
      witnessState.entities ++ [mkUnitEntity "p1" .SOLDIER "u1" (2, 0) witnessPlayer] ∧
    lookupPlayer (spawnUnit witnessState "p1" .SOLDIER "u1" (2, 0)).players "p1" =
      some { witnessPlayer with gold := witnessPlayer.gold - (UNIT_TYPES .SOLDIER).cost,
                                currentPop := witnessPlayer.currentPop + 1 } := by
  have h := c3_spawnUnit_spec witnessState "p1" .SOLDIER "u1" (2, 0)
  have hmain := h.1 witnessPlayer (by decide) (by decide) (by decide) (by decide)
  exact ⟨hmain.2.1, hmain.2.2.1⟩

/-! ## Blocking-wall heuristic (GameEngine.findBlockingWall, claim C8)

Every comparison the source makes against a `Math.sqrt` value is monotone
in the square (the engine never reuses the root itself here), so this
model computes squared distances exactly over `ℚ`; guards against possibly
negative thresholds (`wallRadius + tolerance`) are made explicit. -/

/-- `WALL_TARGET_MAX_DISTANCE` (= 5 tiles). -/
def WALL_TARGET_MAX_DISTANCE : ℚ := 5

/-- `WALL_BLOCK_TOLERANCE` (= 0.75). -/
def WALL_BLOCK_TOLERANCE : ℚ := 3/4

/-- `WALL_BREAK_CLOSE_DISTANCE` (= 2.5). -/
def WALL_BREAK_CLOSE_DISTANCE : ℚ := 5/2

/-- Squared distance between two entities (`getDistance` squared). -/
def distSqE (e1 e2 : Entity) : ℚ :=
  (e1.x - e2.x) ^ 2 + (e1.y - e2.y) ^ 2

/-- `distancePointToSegment` with the final `Math.sqrt` dropped: squared
distance from `(px,py)` to the segment `(ax,ay)-(bx,by2)`. -/
def distancePointToSegmentSq (px py ax ay bx by2 : ℚ) : ℚ :=
  let dx := bx - ax
  let dy := by2 - ay
  if dx = 0 ∧ dy = 0 then (px - ax) ^ 2 + (py - ay) ^ 2
  else
    let t := ((px - ax) * dx + (py - ay) * dy) / (dx * dx + dy * dy)
    let clamped := max 0 (min 1 t)
    let cx := ax + clamped * dx
    let cy := ay + clamped * dy
    (px - cx) ^ 2 + (py - cy) ^ 2

/-- The `if (distToWall < bestDist)` accumulator update of the loop
(`none` plays the role of `bestDist === Infinity`). -/
def fbwUpd (wall : Entity) (distToWallSq : ℚ)
    (acc : Option (Entity × ℚ)) : Option (Entity × ℚ) :=
  match acc with
  | none => some (wall, distToWallSq)
  | some (bw, bd) =>
    if distToWallSq < bd then some (wall, distToWallSq) else some (bw, bd)

/-- One iteration of the `findBlockingWall` candidate loop, threading the
best-so-far accumulator.  The source conditions `distToWall > 5`,
`distToWall >= distToTarget` and `lineDist > wallRadius + 0.75` become
their squared equivalents (the last is true outright when
`wallRadius + 0.75 < 0`, since a root is nonnegative). -/
def fbwStep (source target : Entity) (distToTargetSq : ℚ)
    (acc : Option (Entity × ℚ)) (wall : Entity) : Option (Entity × ℚ) :=
  let distToWallSq := distSqE source wall
  if 25 < distToWallSq then acc
  else if distToTargetSq ≤ distToWallSq then acc
  else
    let wallRadius := orElseNum (some wall.radius) (4/5)
    let lineDistSq := distancePointToSegmentSq wall.x wall.y
      source.x source.y target.x target.y
    if wallRadius + WALL_BLOCK_TOLERANCE < 0 ∨
        (wallRadius + WALL_BLOCK_TOLERANCE) ^ 2 < lineDistSq then acc
    else fbwUpd wall distToWallSq acc

/-- `GameEngine.findBlockingWall`. -/
def findBlockingWall (s : GameState) (source target : Entity) :
    Option Entity :=
  let walls := s.entities.filter (fun e => e.type == EType.WALL && decide (0 < e.hp))
  if walls.isEmpty then none
  else
    let distToTargetSq := distSqE source target
    (walls.foldl (fbwStep source target distToTargetSq) none).map Prod.fst

/-- The blocking conditions of claim C8 for a live wall, in squared form:
within the bounded search radius 5 of the attacker, strictly closer to the
attacker than the target, and with line-to-segment distance within
`radius + tolerance`. -/
def qualB (source target : Entity) (dts : ℚ) (w : Entity) : Bool :=
  let dSq := distSqE source w
  let r := orElseNum (some w.radius) (4/5)
  let lineSq := distancePointToSegmentSq w.x w.y
    source.x source.y target.x target.y
  decide (dSq ≤ 25) && decide (dSq < dts) &&
    decide (0 ≤ r + WALL_BLOCK_TOLERANCE) &&
    decide (lineSq ≤ (r + WALL_BLOCK_TOLERANCE) ^ 2)

/-- Loop invariant of the `findBlockingWall` fold: over the walls seen so
far, `none` means no candidate qualified, `some (bw, bd)` means `bw` is a
qualifying candidate of minimal squared distance `bd`. -/
def FbwInv (source target : Entity) (dts : ℚ) (seen : List Entity)
    (acc : Option (Entity × ℚ)) : Prop :=
  match acc with
  | none => ∀ w ∈ seen, qualB source target dts w = false
  | some (bw, bd) => bw ∈ seen ∧ qualB source target dts bw = true ∧
      bd = distSqE source bw ∧
      ∀ w ∈ seen, qualB source target dts w = true → bd ≤ distSqE source w

lemma fbwStep_preserves (source target : Entity) (dts : ℚ)
    (seen : List Entity) (acc : Option (Entity × ℚ)) (w : Entity)
    (h : FbwInv source target dts seen acc) :
    FbwInv source target dts (seen ++ [w])
      (fbwStep source target dts acc w) := by
  unfold fbwStep
  by_cases h1 : 25 < distSqE source w
  · rw [if_pos h1]
    have hq : qualB source target dts w = false := by
      unfold qualB
      simp only [Bool.and_eq_false_iff, decide_eq_false_iff_not, not_le]
      left; left; left; exact h1
    match acc, h with
    | none, h =>
      intro v hv
      rcases List.mem_append.mp hv with hv | hv
      · exact h v hv
      · simp only [List.mem_singleton] at hv; subst hv; exact hq
    | some (bw, bd), h =>
      refine ⟨List.mem_append.mpr (Or.inl h.1), h.2.1, h.2.2.1, ?_⟩
      intro v hv hqv
      rcases List.mem_append.mp hv with hv | hv
      · exact h.2.2.2 v hv hqv
      · simp only [List.mem_singleton] at hv; subst hv
        rw [hq] at hqv; exact absurd hqv (by simp)
  · rw [if_neg h1]
    by_cases h2 : dts ≤ distSqE source w
    · rw [if_pos h2]
      have hq : qualB source target dts w = false := by
        unfold qualB
        simp only [Bool.and_eq_false_iff, decide_eq_false_iff_not, not_lt]
        left; left; right; exact h2
      match acc, h with
      | none, h =>
        intro v hv
        rcases List.mem_append.mp hv with hv | hv
        · exact h v hv
        · simp only [List.mem_singleton] at hv; subst hv; exact hq
      | some (bw, bd), h =>
        refine ⟨List.mem_append.mpr (Or.inl h.1), h.2.1, h.2.2.1, ?_⟩
        intro v hv hqv
        rcases List.mem_append.mp hv with hv | hv
        · exact h.2.2.2 v hv hqv
        · simp only [List.mem_singleton] at hv; subst hv
          rw [hq] at hqv; exact absurd hqv (by simp)
    · rw [if_neg h2]
      by_cases h3 : orElseNum (some w.radius) (4/5) + WALL_BLOCK_TOLERANCE < 0 ∨
          (orElseNum (some w.radius) (4/5) + WALL_BLOCK_TOLERANCE) ^ 2 <
            distancePointToSegmentSq w.x w.y source.x source.y target.x target.y
      · rw [if_pos h3]
        have hq : qualB source target dts w = false := by
          unfold qualB
          simp only [Bool.and_eq_false_iff, decide_eq_false_iff_not, not_le]
          rcases h3 with h3 | h3
          · left; right; simpa using h3
          · right; simpa using h3
        match acc, h with
        | none, h =>
          intro v hv
          rcases List.mem_append.mp hv with hv | hv
          · exact h v hv
          · simp only [List.mem_singleton] at hv; subst hv; exact hq
        | some (bw, bd), h =>
          refine ⟨List.mem_append.mpr (Or.inl h.1), h.2.1, h.2.2.1, ?_⟩
          intro v hv hqv
          rcases List.mem_append.mp hv with hv | hv
          · exact h.2.2.2 v hv hqv
          · simp only [List.mem_singleton] at hv; subst hv
            rw [hq] at hqv; exact absurd hqv (by simp)
      · rw [if_neg h3]
        push_neg at h3
        have hq : qualB source target dts w = true := by
          unfold qualB
          simp only [Bool.and_eq_true, decide_eq_true_eq]
          refine ⟨⟨⟨le_of_not_lt h1, lt_of_not_le h2⟩, ?_⟩, ?_⟩
          · simpa using h3.1
          · simpa using h3.2
        match acc, h with
        | none, h =>
          simp only [fbwUpd]
          refine ⟨List.mem_append.mpr (Or.inr (by simp)), hq, rfl, ?_⟩
          intro v hv hqv
          rcases List.mem_append.mp hv with hv | hv
          · rw [h v hv] at hqv; exact absurd hqv (by simp)
          · simp only [List.mem_singleton] at hv; subst hv; exact le_refl _
        | some (bw, bd), h =>
          simp only [fbwUpd]
          by_cases h4 : distSqE source w < bd
          · rw [if_pos h4]
            refine ⟨List.mem_append.mpr (Or.inr (by simp)), hq, rfl, ?_⟩
            intro v hv hqv
            rcases List.mem_append.mp hv with hv | hv
            · exact le_of_lt (lt_of_lt_of_le h4 (h.2.2.2 v hv hqv))
            · simp only [List.mem_singleton] at hv; subst hv; exact le_refl _
          · rw [if_neg h4]
            refine ⟨List.mem_append.mpr (Or.inl h.1), h.2.1, h.2.2.1, ?_⟩
            intro v hv hqv
            rcases List.mem_append.mp hv with hv | hv
            · exact h.2.2.2 v hv hqv
            · simp only [List.mem_singleton] at hv; subst hv
              exact le_of_not_lt h4

lemma fbw_fold_inv (source target : Entity) (dts : ℚ) (l : List Entity) :
    ∀ (seen : List Entity) (acc : Option (Entity × ℚ)),
    FbwInv source target dts seen acc →
    FbwInv source target dts (seen ++ l)
      (l.foldl (fbwStep source target dts) acc) := by
  induction l with
  | nil => intro seen acc h; simpa using h
  | cons w rest ih =>
    intro seen acc h
    have h2 := fbwStep_preserves source target dts seen acc w h
    have h3 := ih (seen ++ [w]) (fbwStep source target dts acc w) h2
    simpa [List.append_assoc] using h3

/-- Claim C8: `findBlockingWall` returns a wall only if it is a live wall
entity of the state satisfying the blocking conditions (within the bounded
search radius 5 of the attacker, line distance within `radius + tolerance`,
and strictly closer to the attacker than the target), and among all walls
satisfying those conditions the returned one is nearest to the attacker;
when no wall satisfies them it returns `none`.  All distance comparisons
are stated in exactly equivalent squared form. -/
theorem c8_findBlockingWall_spec (s : GameState) (source target : Entity) :
    (∀ w, findBlockingWall s source target = some w →
      w ∈ s.entities ∧ w.type = .WALL ∧ 0 < w.hp ∧
      qualB source target (distSqE source target) w = true ∧
      ∀ w2 ∈ s.entities, w2.type = .WALL → 0 < w2.hp →
        qualB source target (distSqE source target) w2 = true →
        distSqE source w ≤ distSqE source w2) ∧
    (findBlockingWall s source target = none →
      ∀ w2 ∈ s.entities, w2.type = .WALL → 0 < w2.hp →
        qualB source target (distSqE source target) w2 = false) := by
  have hfold : findBlockingWall s source target =
      ((s.entities.filter (fun e => e.type == EType.WALL && decide (0 < e.hp))).foldl
        (fbwStep source target (distSqE source target)) none).map Prod.fst := by
    unfold findBlockingWall
    by_cases h : (s.entities.filter
        (fun e => e.type == EType.WALL && decide (0 < e.hp))).isEmpty
    · rw [if_pos h]
      rw [List.isEmpty_iff] at h
      rw [h]
      rfl
    · rw [if_neg h]
  have hmem : ∀ w2, w2 ∈ s.entities.filter
      (fun e => e.type == EType.WALL && decide (0 < e.hp)) ↔
      (w2 ∈ s.entities ∧ w2.type = .WALL ∧ 0 < w2.hp) := by
    intro w2
    rw [List.mem_filter]
    simp [Bool.and_eq_true, beq_iff_eq, decide_eq_true_eq, and_assoc]
  have hinv := fbw_fold_inv source target (distSqE source target)
    (s.entities.filter (fun e => e.type == EType.WALL && decide (0 < e.hp)))
    [] none (by intro v hv; exact absurd hv (by simp))
  simp only [List.nil_append] at hinv
  constructor
  · intro w hw
    rw [hfold] at hw
    rcases hres : (s.entities.filter
        (fun e => e.type == EType.WALL && decide (0 < e.hp))).foldl
          (fbwStep source target (distSqE source target)) none with _ | ⟨bw, bd⟩
    · rw [hres] at hw
      exact absurd hw (by simp)
    · rw [hres] at hinv hw
      have hbw : bw = w := by simpa using hw
      subst hbw
      obtain ⟨hmem2, hqual, hbd, hmin⟩ := hinv
      obtain ⟨he, htype, hhp⟩ := (hmem bw).mp hmem2
      refine ⟨he, htype, hhp, hqual, ?_⟩
      intro w2 hw2 htype2 hhp2 hqual2
      rw [← hbd]
      exact hmin w2 ((hmem w2).mpr ⟨hw2, htype2, hhp2⟩) hqual2
  · intro hw w2 hw2 htype hhp
    rw [hfold] at hw
    rcases hres : (s.entities.filter
        (fun e => e.type == EType.WALL && decide (0 < e.hp))).foldl
          (fbwStep source target (distSqE source target)) none with _ | ⟨bw, bd⟩
    · rw [hres] at hinv
      exact hinv w2 ((hmem w2).mpr ⟨hw2, htype, hhp⟩)
    · rw [hres] at hw
      exact absurd hw (by simp)

/-- A concrete wall entity for the C8 witness. -/
def witnessWall : Entity :=
  { id := "w1", type := .WALL, x := 2, y := 0, hp := 200, maxHp := 200,
    radius := 4/5, ownerId := "p1" }

/-- A concrete attacker for the C8 witness. -/
def witnessSource : Entity :=
  { id := "z1", type := .ZOMBIE, x := 0, y := 0, hp := 30, maxHp := 30,
    radius := 2/5, ownerId := "enemy" }

/-- A concrete target for the C8 witness. -/
def witnessTarget : Entity :=
  { id := "base_p1", type := .BASE, x := 4, y := 0, hp := 1000,
    maxHp := 1000, radius := 3/2, ownerId := "p1" }

/-- The state holding just the witness wall. -/
def witnessWallState : GameState :=
  { players := [], entities := [witnessWall], lastTick := 0,
    gameOver := false, winner := none, waveNumber := 1 }

/-- Witness for C8: on the concrete state, the wall on the straight line is
found and satisfies the blocking conditions minimally. -/
theorem c8_witness :
    witnessWall ∈ witnessWallState.entities ∧ witnessWall.type = .WALL ∧
    (0:ℚ) < witnessWall.hp ∧
    qualB witnessSource witnessTarget
      (distSqE witnessSource witnessTarget) witnessWall = true ∧
    ∀ w2 ∈ witnessWallState.entities, w2.type = .WALL → 0 < w2.hp →
      qualB witnessSource witnessTarget
        (distSqE witnessSource witnessTarget) w2 = true →
      distSqE witnessSource witnessWall ≤ distSqE witnessSource w2 :=
  (c8_findBlockingWall_spec witnessWallState witnessSource witnessTarget).1
    witnessWall (by with_unfolding_all rfl)

/-! ## A* pathfinder (GameEngine.findPath, claims C1 and C9)

`findPath` floors its inputs to integer tiles and searches the 64x64 grid.
The terrain test it consults (`this.isValidTerrain`) and the blocked-tile
test (`blockedTiles.has(...)`, or `isPositionBlocked` when no set is
supplied) are taken as function parameters; C1's properties are uniform in
them.  The open set is the source's array of `{node, f}` records, the
`cameFrom`/`gScore` string-keyed `Map`s are functions on tiles.  The
source `while` loop carries no bound; the model adds explicit fuel, and C9
proves a finite fuel always suffices. -/

/-- The center of a tile, `(t.x + 0.5, t.y + 0.5)`. -/
def tileCenter (t : Tile) : ℚ × ℚ := ((t.1 : ℚ) + 1/2, (t.2 : ℚ) + 1/2)

/-- `inBounds` from `findPath`. -/
def inBounds (x y : ℤ) : Bool :=
  decide (0 ≤ x) && decide (x < MAP_SIZE) && decide (0 ≤ y) && decide (y < MAP_SIZE)

/-- Search state of the A* loop. -/
structure AStarState where
  openSet : List (Tile × ℚ)
  cameFrom : Tile → Option Tile
  gScore : Tile → Option ℚ

/-- `popLowest`: remove and return the open-set entry with the lowest `f`
(the earliest such entry on ties, as the source scan updates only on a
strictly smaller `f`), preserving the order of the remaining entries,
exactly as the linear scan plus `splice` does. -/
def popLowest : List (Tile × ℚ) → Option ((Tile × ℚ) × List (Tile × ℚ))
  | [] => none
  | e :: rest =>
    match popLowest rest with
    | none => some (e, [])
    | some (b, r) =>
      if b.2 < e.2 then some (b, e :: r) else some (e, rest)

/-- The body of the `for (const n of neighbors)` relaxation loop.
`gScore.get(currentKey) ?? Infinity` makes `tentativeG` infinite when the
current tile has no g-score, and `Infinity < prevG` never holds, so that
case leaves the state unchanged. -/
def expandNeighbor (terrain : ℤ → ℤ → Bool) (blocked : Tile → Bool)
    (goal current : Tile) (st : AStarState) (n : Tile) : AStarState :=
  let nx := current.1 + n.1
  let ny := current.2 + n.2
  if inBounds nx ny = false then st
  else if terrain nx ny = false then st
  else if (nx, ny) ≠ goal ∧ blocked (nx, ny) = true then st
  else
    match st.gScore current with
    | none => st
    | some gc =>
      let tentativeG := gc + stepCost n
      let doUpdate :=
        match st.gScore (nx, ny) with
        | none => true
        | some prevG => decide (tentativeG < prevG)
      if doUpdate then
        { openSet :=
            if st.openSet.any (fun o => o.1 = (nx, ny)) then st.openSet
            else st.openSet ++
              [((nx, ny), tentativeG + (manhattan (nx, ny) goal : ℚ))],
          cameFrom := fun t => if t = (nx, ny) then some current else st.cameFrom t,
          gScore := fun t => if t = (nx, ny) then some tentativeG else st.gScore t }
      else st

/-- The `while (curK && curK !== startKey)` reconstruction loop: push the
centers of the `cameFrom` chain, then the start center, and reverse.  When
the chain misses (`cameFrom.get` returns `undefined`) the source loop also
exits and still appends the start center. -/
def reconstructPath (cameFrom : Tile → Option Tile) (start : Tile) :
    ℕ → Tile → List (ℚ × ℚ) → Option (List (ℚ × ℚ))
  | 0, _, _ => none
  | fuel + 1, cur, acc =>
    if cur = start then some ((acc ++ [tileCenter start]).reverse)
    else
      match cameFrom cur with
      | none => some (((acc ++ [tileCenter cur]) ++ [tileCenter start]).reverse)
      | some p => reconstructPath cameFrom start fuel p (acc ++ [tileCenter cur])

/-- The main A* loop.  `none`: out of fuel; `some none`: open set
exhausted, no path; `some (some p)`: path found. -/
def astarLoop (terrain : ℤ → ℤ → Bool) (blocked : Tile → Bool)
    (goal start : Tile) : ℕ → AStarState → Option (Option (List (ℚ × ℚ)))
  | 0, _ => none
  | fuel + 1, st =>
    match popLowest st.openSet with
    | none => some none
    | some ((current, _), rest) =>
      if current = goal then
        match reconstructPath st.cameFrom start (fuel + 1) current [] with
        | none => none
        | some p => some (some p)
      else
        astarLoop terrain blocked goal start fuel
          (neighborOffsets.foldl
            (expandNeighbor terrain blocked goal current)
            { st with openSet := rest })

/-- The initial A* state built by `findPath` before the loop. -/
def astarInit (goal start : Tile) : AStarState :=
  { openSet := [(start, (manhattan start goal : ℚ))],
    cameFrom := fun _ => none,
    gScore := fun t => if t = start then some 0 else none }

/-- `GameEngine.findPath` with explicit fuel; result `none` means the fuel
ran out before the loop finished. -/
def findPathFuel (terrain : ℤ → ℤ → Bool) (blocked : Tile → Bool)
    (startX startY goalX goalY : ℚ) (fuel : ℕ) :
    Option (Option (List (ℚ × ℚ))) :=
  astarLoop terrain blocked (⌊goalX⌋, ⌊goalY⌋) (⌊startX⌋, ⌊startY⌋) fuel
    (astarInit (⌊goalX⌋, ⌊goalY⌋) (⌊startX⌋, ⌊startY⌋))

/-- `GameEngine.findPath`: `some` waypoint list or `none`. -/
def findPath (terrain : ℤ → ℤ → Bool) (blocked : Tile → Bool)
    (startX startY goalX goalY : ℚ) (fuel : ℕ) : Option (List (ℚ × ℚ)) :=
  (findPathFuel terrain blocked startX startY goalX goalY fuel).join

lemma popLowest_eq_none {l : List (Tile × ℚ)} :
    popLowest l = none ↔ l = [] := by
  cases l with
  | nil => simp [popLowest]
  | cons e rest =>
    simp only [popLowest]
    constructor
    · intro h
      match hres : popLowest rest with
      | none => simp only [hres] at h; exact absurd h (by simp)
      | some (b, r) =>
        simp only [hres] at h
        by_cases hb : b.2 < e.2
        · rw [if_pos hb] at h; exact absurd h (by simp)
        · rw [if_neg hb] at h; exact absurd h (by simp)
    · intro h; exact absurd h (by simp)

lemma popLowest_mem {l : List (Tile × ℚ)} {b : Tile × ℚ}
    {r : List (Tile × ℚ)} (h : popLowest l = some (b, r)) :
    b ∈ l ∧ ∀ e ∈ r, e ∈ l := by
  induction l generalizing b r with
  | nil => exact absurd h (by simp [popLowest])
  | cons e rest ih =>
    simp only [popLowest] at h
    match hres : popLowest rest with
    | none =>
      simp only [hres] at h
      have hrest : rest = [] := popLowest_eq_none.mp hres
      simp only [Option.some_inj, Prod.mk.injEq] at h
      obtain ⟨hb, hr⟩ := h
      subst hb; subst hr
      exact ⟨by simp, by simp⟩
    | some (b2, r2) =>
      simp only [hres] at h
      by_cases hlt : b2.2 < e.2
      · rw [if_pos hlt] at h
        simp only [Option.some_inj, Prod.mk.injEq] at h
        obtain ⟨hb, hr⟩ := h
        subst hb; subst hr
        obtain ⟨hmem, hsub⟩ := ih hres
        refine ⟨List.mem_cons_of_mem _ hmem, ?_⟩
        intro x hx
        rcases List.mem_cons.mp hx with hx | hx
        · subst hx; exact List.mem_cons_self _ _
        · exact List.mem_cons_of_mem _ (hsub x hx)
      · rw [if_neg hlt] at h
        simp only [Option.some_inj, Prod.mk.injEq] at h
        obtain ⟨hb, hr⟩ := h
        subst hb; subst hr
        exact ⟨List.mem_cons_self _ _, fun x hx => List.mem_cons_of_mem _ hx⟩

lemma popLowest_length {l : List (Tile × ℚ)} {b : Tile × ℚ}
    {r : List (Tile × ℚ)} (h : popLowest l = some (b, r)) :
    r.length + 1 = l.length := by
  induction l generalizing b r with
  | nil => exact absurd h (by simp [popLowest])
  | cons e rest ih =>
    simp only [popLowest] at h
    match hres : popLowest rest with
    | none =>
      simp only [hres] at h
      have hrest : rest = [] := popLowest_eq_none.mp hres
      simp only [Option.some_inj, Prod.mk.injEq] at h
      obtain ⟨-, hr⟩ := h
      subst hr; subst hrest
      simp
    | some (b2, r2) =>
      simp only [hres] at h
      by_cases hlt : b2.2 < e.2
      · rw [if_pos hlt] at h
        simp only [Option.some_inj, Prod.mk.injEq] at h
        obtain ⟨-, hr⟩ := h
        subst hr
        have := ih hres
        simp only [List.length_cons]
        omega
      · rw [if_neg hlt] at h
        simp only [Option.some_inj, Prod.mk.injEq] at h
        obtain ⟨-, hr⟩ := h
        subst hr
        simp

/-- What the relaxation guards guarantee for every tile that becomes a
`cameFrom` key: it passed the terrain check, and (unless it is the goal)
the blocked check. -/
def KeyOK (terrain : ℤ → ℤ → Bool) (blocked : Tile → Bool)
    (goal t : Tile) : Prop :=
  terrain t.1 t.2 = true ∧ (t ≠ goal → blocked t = false)

/-- A* loop invariant for C1: every open node other than the start is a
`cameFrom` key; every `cameFrom` key passed the guards and is adjacent to
its parent; every parent is the start or itself a key. -/
structure AInv (terrain : ℤ → ℤ → Bool) (blocked : Tile → Bool)
    (goal start : Tile) (st : AStarState) : Prop where
  open_ok : ∀ e ∈ st.openSet, e.1 = start ∨ (st.cameFrom e.1).isSome
  came_ok : ∀ t p, st.cameFrom t = some p →
    KeyOK terrain blocked goal t ∧ adjacent8 p t = true
  came_parent : ∀ t p, st.cameFrom t = some p →
    p = start ∨ (st.cameFrom p).isSome

/-- Case analysis of one neighbour relaxation: either nothing changes, or
the guards all passed and the maps/open set are updated as written. -/
lemma expand_cases (terrain : ℤ → ℤ → Bool) (blocked : Tile → Bool)
    (goal current : Tile) (st : AStarState) (n : Tile) :
    expandNeighbor terrain blocked goal current st n = st ∨
    ∃ gc : ℚ, st.gScore current = some gc ∧
      inBounds (current.1 + n.1) (current.2 + n.2) = true ∧
      terrain (current.1 + n.1) (current.2 + n.2) = true ∧
      ((current.1 + n.1, current.2 + n.2) = goal ∨
        blocked (current.1 + n.1, current.2 + n.2) = false) ∧
      expandNeighbor terrain blocked goal current st n =
        { openSet :=
            if st.openSet.any
                (fun o => o.1 = (current.1 + n.1, current.2 + n.2)) then
              st.openSet
            else st.openSet ++ [((current.1 + n.1, current.2 + n.2),
              gc + stepCost n +
                (manhattan (current.1 + n.1, current.2 + n.2) goal : ℚ))],
          cameFrom := fun t =>
            if t = (current.1 + n.1, current.2 + n.2) then some current
            else st.cameFrom t,
          gScore := fun t =>
            if t = (current.1 + n.1, current.2 + n.2) then
              some (gc + stepCost n)
            else st.gScore t } := by
  unfold expandNeighbor
  by_cases h1 : inBounds (current.1 + n.1) (current.2 + n.2) = false
  · left; rw [if_pos h1]
  · rw [if_neg h1]
    by_cases h2 : terrain (current.1 + n.1) (current.2 + n.2) = false
    · left; rw [if_pos h2]
    · rw [if_neg h2]
      by_cases h3 : (current.1 + n.1, current.2 + n.2) ≠ goal ∧
          blocked (current.1 + n.1, current.2 + n.2) = true
      · left; rw [if_pos h3]
      · rw [if_neg h3]
        rcases hgc : st.gScore current with _ | gc
        · left
          simp only [hgc]
        · simp only [hgc]
          by_cases h4 : (match st.gScore (current.1 + n.1, current.2 + n.2) with
            | none => true
            | some prevG => decide (gc + stepCost n < prevG)) = true
          · right
            refine ⟨gc, rfl, ?_, ?_, ?_, ?_⟩
            · cases hb : inBounds (current.1 + n.1) (current.2 + n.2)
              · exact absurd hb h1
              · rfl
            · cases ht : terrain (current.1 + n.1) (current.2 + n.2)
              · exact absurd ht h2
              · rfl
            · by_cases hg : (current.1 + n.1, current.2 + n.2) = goal
              · exact Or.inl hg
              · right
                cases hbl : blocked (current.1 + n.1, current.2 + n.2)
                · rfl
                · exact absurd ⟨hg, hbl⟩ h3
            · rw [if_pos h4]
          · left
            rw [if_neg h4]

lemma expand_cameFrom_mono (terrain : ℤ → ℤ → Bool) (blocked : Tile → Bool)
    (goal current : Tile) (st : AStarState) (n : Tile) (t : Tile)
    (h : (st.cameFrom t).isSome) :
    ((expandNeighbor terrain blocked goal current st n).cameFrom t).isSome := by
  rcases expand_cases terrain blocked goal current st n with
    heq | ⟨gc, -, -, -, -, heq⟩
  · rw [heq]; exact h
  · rw [heq]
    by_cases ht : t = (current.1 + n.1, current.2 + n.2)
    · simp [ht]
    · simpa [ht] using h

lemma expand_preserves (terrain : ℤ → ℤ → Bool) (blocked : Tile → Bool)
    (goal start current : Tile) (st : AStarState) (n : Tile)
    (hn : n ∈ neighborOffsets)
    (hcur : current = start ∨ (st.cameFrom current).isSome)
    (hinv : AInv terrain blocked goal start st) :
    AInv terrain blocked goal start
      (expandNeighbor terrain blocked goal current st n) := by
  rcases expand_cases terrain blocked goal current st n with
    heq | ⟨gc, hgc, hb, ht, hbl, heq⟩
  · rw [heq]; exact hinv
  · rw [heq]
    constructor
    · intro e he
      by_cases het : e.1 = (current.1 + n.1, current.2 + n.2)
      · right; simp [het]
      · have hmem : e ∈ st.openSet := by
          by_cases hany : st.openSet.any
              (fun o => o.1 = (current.1 + n.1, current.2 + n.2)) = true
          · simpa [hany] using he
          · simp only [hany, Bool.false_eq_true, if_false,
              List.mem_append, List.mem_singleton] at he
            rcases he with he | he
            · exact he
            · exact absurd (by rw [he]) het
        rcases hinv.open_ok e hmem with h | h
        · exact Or.inl h
        · right; simpa [het] using h
    · intro t p hcf
      by_cases htn : t = (current.1 + n.1, current.2 + n.2)
      · subst htn
        have hp : current = p := by simpa using hcf
        rw [← hp]
        refine ⟨⟨ht, ?_⟩, ?_⟩
        · intro hne
          rcases hbl with h | h
          · exact absurd h hne
          · exact h
        · have hoff : ((current.1 + n.1) - current.1, (current.2 + n.2) - current.2)
              = n := by
            simp
          simp only [adjacent8, hoff]
          exact List.elem_eq_true_of_mem hn
      · simp only [if_neg htn] at hcf
        exact hinv.came_ok t p hcf
    · intro t p hcf
      by_cases htn : t = (current.1 + n.1, current.2 + n.2)
      · subst htn
        have hp : current = p := by simpa using hcf
        rw [← hp]
        rcases hcur with h | h
        · exact Or.inl h
        · right
          by_cases hc : current = (current.1 + n.1, current.2 + n.2)
          · have hres : (if current = (current.1 + n.1, current.2 + n.2) then
                some current else st.cameFrom current).isSome = true := by
              rw [if_pos hc]
              rfl
            simpa using hres
          · simpa [hc] using h
      · simp only [if_neg htn] at hcf
        rcases hinv.came_parent t p hcf with h | h
        · exact Or.inl h
        · right
          by_cases hp : p = (current.1 + n.1, current.2 + n.2)
          · simp [hp]
          · simpa [hp] using h

lemma expand_fold_preserves (terrain : ℤ → ℤ → Bool) (blocked : Tile → Bool)
    (goal start current : Tile) :
    ∀ (ns : List Tile) (st : AStarState), (∀ n ∈ ns, n ∈ neighborOffsets) →
    (current = start ∨ (st.cameFrom current).isSome) →
    AInv terrain blocked goal start st →
    AInv terrain blocked goal start
      (ns.foldl (expandNeighbor terrain blocked goal current) st) := by
  intro ns
  induction ns with
  | nil => intro st _ _ hinv; exact hinv
  | cons n rest ih =>
    intro st hns hcur hinv
    simp only [List.foldl_cons]
    apply ih
    · intro m hm; exact hns m (List.mem_cons_of_mem _ hm)
    · rcases hcur with h | h
      · exact Or.inl h
      · exact Or.inr (expand_cameFrom_mono terrain blocked goal current st n
          current h)
    · exact expand_preserves terrain blocked goal start current st n
        (hns n (List.mem_cons_self _ _)) hcur hinv

lemma floor_half : (⌊(1/2 : ℚ)⌋ : ℤ) = 0 := by norm_num

lemma floor_tileCenter_fst (t : Tile) : (⌊(tileCenter t).1⌋ : ℤ) = t.1 := by
  unfold tileCenter
  rw [Int.floor_int_add t.1 _, floor_half, add_zero]

lemma floor_tileCenter_snd (t : Tile) : (⌊(tileCenter t).2⌋ : ℤ) = t.2 := by
  unfold tileCenter
  rw [Int.floor_int_add t.2 _, floor_half, add_zero]

lemma floor_tileCenter (t : Tile) :
    ((⌊(tileCenter t).1⌋ : ℤ), (⌊(tileCenter t).2⌋ : ℤ)) = t := by
  unfold tileCenter
  have h1 : ⌊((t.1 : ℚ)) + 1/2⌋ = t.1 + ⌊(1/2 : ℚ)⌋ := Int.floor_int_add t.1 _
  have h2 : ⌊((t.2 : ℚ)) + 1/2⌋ = t.2 + ⌊(1/2 : ℚ)⌋ := Int.floor_int_add t.2 _
  simp only [h1, h2, floor_half, add_zero]

lemma reconstruct_sound (cameFrom : Tile → Option Tile)
    (terrain : ℤ → ℤ → Bool) (blocked : Tile → Bool) (goal start : Tile)
    (hok : ∀ t p, cameFrom t = some p →
      KeyOK terrain blocked goal t ∧ adjacent8 p t = true)
    (hpar : ∀ t p, cameFrom t = some p → p = start ∨ (cameFrom p).isSome) :
    ∀ (fuel : ℕ) (cur : Tile) (acc p : List (ℚ × ℚ)),
    (cur = start ∨ (cameFrom cur).isSome) →
    reconstructPath cameFrom start fuel cur acc = some p →
    ∃ tl : List Tile,
      p = ((acc ++ tl.map tileCenter) ++ [tileCenter start]).reverse ∧
      (∀ m ∈ tl, KeyOK terrain blocked goal m) ∧
      List.Chain' (fun a b => adjacent8 b a = true) tl ∧
      (∀ m, tl.getLast? = some m → adjacent8 start m = true) ∧
      tl.head? = (if cur = start then none else some cur) := by
  intro fuel
  induction fuel with
  | zero =>
    intro cur acc p _ h
    exact absurd h (by simp [reconstructPath])
  | succ fuel ih =>
    intro cur acc p hcur h
    simp only [reconstructPath] at h
    by_cases hcs : cur = start
    · rw [if_pos hcs] at h
      refine ⟨[], ?_, by simp, by simp, by simp, by simp [hcs]⟩
      simp only [List.map_nil, List.append_nil]
      simpa using h.symm
    · rw [if_neg hcs] at h
      rcases hcur with hc | hc
      · exact absurd hc hcs
      · obtain ⟨par, hpar1⟩ := Option.isSome_iff_exists.mp hc
        simp only [hpar1] at h
        have hparnext := hpar cur par hpar1
        obtain ⟨tl2, hp2, hkey2, hchain2, hlast2, hhead2⟩ :=
          ih par (acc ++ [tileCenter cur]) p hparnext h
        refine ⟨cur :: tl2, ?_, ?_, ?_, ?_, by simp [hcs]⟩
        · rw [hp2]
          simp [List.append_assoc]
        · intro m hm
          rcases List.mem_cons.mp hm with hm | hm
          · rw [hm]; exact (hok cur par hpar1).1
          · exact hkey2 m hm
        · rw [List.chain'_cons']
          refine ⟨?_, hchain2⟩
          intro b hb
          by_cases hps : par = start
          · rw [if_pos hps] at hhead2
            rw [hhead2] at hb
            exact absurd hb (by simp)
          · rw [if_neg hps] at hhead2
            rw [hhead2] at hb
            have hbpar : par = b := by simpa using hb
            rw [← hbpar]
            exact (hok cur par hpar1).2
        · intro m hm
          cases htl2 : tl2 with
          | nil =>
            subst htl2
            have hmc : cur = m := by simpa using hm
            have hps : par = start := by
              by_cases hps : par = start
              · exact hps
              · rw [if_neg hps] at hhead2
                exact absurd hhead2 (by simp)
            have hadj := (hok cur par hpar1).2
            rw [hps] at hadj
            rw [← hmc]
            exact hadj
          | cons b tlrest =>
            subst htl2
            rw [List.getLast?_cons_cons] at hm
            exact hlast2 m hm

lemma astar_loop_sound (terrain : ℤ → ℤ → Bool) (blocked : Tile → Bool)
    (goal start : Tile) :
    ∀ (fuel : ℕ) (st : AStarState) (p : List (ℚ × ℚ)),
    AInv terrain blocked goal start st →
    astarLoop terrain blocked goal start fuel st = some (some p) →
    ∃ tl : List Tile,
      p = (tl.map tileCenter ++ [tileCenter start]).reverse ∧
      (∀ m ∈ tl, KeyOK terrain blocked goal m) ∧
      List.Chain' (fun a b => adjacent8 b a = true) tl ∧
      (∀ m, tl.getLast? = some m → adjacent8 start m = true) := by
  intro fuel
  induction fuel with
  | zero =>
    intro st p _ h
    exact absurd h (by simp [astarLoop])
  | succ fuel ih =>
    intro st p hinv h
    simp only [astarLoop] at h
    match hpop : popLowest st.openSet with
    | none =>
      simp only [hpop] at h
      exact absurd h (by simp)
    | some ((current, f), rest) =>
      simp only [hpop] at h
      have hmem := popLowest_mem hpop
      have hcur := hinv.open_ok (current, f) hmem.1
      by_cases hcg : current = goal
      · rw [if_pos hcg] at h
        match hrec : reconstructPath st.cameFrom start (fuel + 1) current [] with
        | none =>
          simp only [hrec] at h
          exact absurd h (by simp)
        | some p2 =>
          simp only [hrec] at h
          have hp2 : p2 = p := by simpa using h
          subst hp2
          obtain ⟨tl, h1, h2, h3, h4, -⟩ :=
            reconstruct_sound st.cameFrom terrain blocked goal start
              hinv.came_ok hinv.came_parent (fuel + 1) current [] p2 hcur hrec
          exact ⟨tl, by simpa using h1, h2, h3, h4⟩
      · rw [if_neg hcg] at h
        apply ih _ p _ h
        apply expand_fold_preserves
        · intro n hn; exact hn
        · exact hcur
        · constructor
          · intro e he
            exact hinv.open_ok e (hmem.2 e he)
          · exact hinv.came_ok
          · exact hinv.came_parent

/-- Adjacency of two tile-center waypoints: their tiles differ by one
8-directional step. -/
def centerAdj (q r : ℚ × ℚ) : Prop :=
  adjacent8 (⌊q.1⌋, ⌊q.2⌋) (⌊r.1⌋, ⌊r.2⌋) = true

/-- Claim C1 as stated: every returned path is non-empty, starts at the
start tile's center, consists of tile centers with consecutive tiles
adjacent, and every waypoint's tile — with the possible exception of the
final goal tile — satisfies the terrain oracle and is not blocked. -/
def C1Claim : Prop :=
  ∀ (terrain : ℤ → ℤ → Bool) (blocked : Tile → Bool)
    (sx sy gx gy : ℚ) (fuel : ℕ) (p : List (ℚ × ℚ)),
    findPath terrain blocked sx sy gx gy fuel = some p →
    p ≠ [] ∧ p.head? = some (tileCenter (⌊sx⌋, ⌊sy⌋)) ∧
    (∀ q ∈ p, ∃ t : Tile, q = tileCenter t) ∧
    List.Chain' centerAdj p ∧
    (∀ q ∈ p, ((⌊q.1⌋ : ℤ), (⌊q.2⌋ : ℤ)) ≠ (⌊gx⌋, ⌊gy⌋) →
      terrain ⌊q.1⌋ ⌊q.2⌋ = true ∧ blocked (⌊q.1⌋, ⌊q.2⌋) = false)

lemma findPath_eq_some {terrain : ℤ → ℤ → Bool} {blocked : Tile → Bool}
    {sx sy gx gy : ℚ} {fuel : ℕ} {p : List (ℚ × ℚ)}
    (h : findPath terrain blocked sx sy gx gy fuel = some p) :
    astarLoop terrain blocked (⌊gx⌋, ⌊gy⌋) (⌊sx⌋, ⌊sy⌋) fuel
      (astarInit (⌊gx⌋, ⌊gy⌋) (⌊sx⌋, ⌊sy⌋)) = some (some p) := by
  unfold findPath findPathFuel at h
  match hres : astarLoop terrain blocked (⌊gx⌋, ⌊gy⌋) (⌊sx⌋, ⌊sy⌋) fuel
      (astarInit (⌊gx⌋, ⌊gy⌋) (⌊sx⌋, ⌊sy⌋)) with
  | none => rw [hres] at h; exact absurd h (by simp [Option.join])
  | some none => rw [hres] at h; exact absurd h (by simp [Option.join])
  | some (some p2) =>
    rw [hres] at h
    have hp2 : p2 = p := by simpa [Option.join] using h
    rw [hp2]

lemma astarInit_inv (terrain : ℤ → ℤ → Bool) (blocked : Tile → Bool)
    (goal start : Tile) :
    AInv terrain blocked goal start (astarInit goal start) := by
  constructor
  · intro e he
    left
    have : e = (start, (manhattan start goal : ℚ)) := by
      simpa [astarInit] using he
    rw [this]
  · intro t p h
    exact absurd h (by simp [astarInit])
  · intro t p h
    exact absurd h (by simp [astarInit])

/-- C1 amended: dropping the start waypoint from the terrain/blocked
guarantee.  Every returned path is non-empty, starts at the start tile's
center, consists of tile centers, consecutive waypoints are one
8-directional step apart, and every waypoint AFTER THE FIRST satisfies the
terrain oracle and — except for the final goal tile — is not in the
blocked set.  (The source never checks the start tile itself: the claim's
guarantee fails only there, see the counterexample.) -/
theorem c1_findPath_path_properties (terrain : ℤ → ℤ → Bool)
    (blocked : Tile → Bool) (sx sy gx gy : ℚ) (fuel : ℕ) (p : List (ℚ × ℚ))
    (h : findPath terrain blocked sx sy gx gy fuel = some p) :
    p ≠ [] ∧ p.head? = some (tileCenter (⌊sx⌋, ⌊sy⌋)) ∧
    (∀ q ∈ p, ∃ t : Tile, q = tileCenter t) ∧
    List.Chain' centerAdj p ∧
    (∀ q ∈ p.tail, terrain ⌊q.1⌋ ⌊q.2⌋ = true ∧
      (((⌊q.1⌋ : ℤ), (⌊q.2⌋ : ℤ)) ≠ (⌊gx⌋, ⌊gy⌋) →
        blocked (⌊q.1⌋, ⌊q.2⌋) = false)) := by
  obtain ⟨tl, hform, hkey, hchain, hlast⟩ :=
    astar_loop_sound terrain blocked (⌊gx⌋, ⌊gy⌋) (⌊sx⌋, ⌊sy⌋) fuel
      (astarInit (⌊gx⌋, ⌊gy⌋) (⌊sx⌋, ⌊sy⌋)) p
      (astarInit_inv terrain blocked (⌊gx⌋, ⌊gy⌋) (⌊sx⌋, ⌊sy⌋))
      (findPath_eq_some h)
  have hform2 : p = tileCenter (⌊sx⌋, ⌊sy⌋) :: (tl.map tileCenter).reverse := by
    rw [hform, List.reverse_append]
    rfl
  subst hform2
  refine ⟨by simp, by simp, ?_, ?_, ?_⟩
  · intro q hq
    rcases List.mem_cons.mp hq with hq | hq
    · exact ⟨(⌊sx⌋, ⌊sy⌋), hq⟩
    · obtain ⟨m, -, hm2⟩ := List.mem_map.mp (List.mem_reverse.mp hq)
      exact ⟨m, hm2.symm⟩
  · rw [List.chain'_cons']
    constructor
    · intro b hb
      rw [List.head?_reverse, List.getLast?_map] at hb
      match hlm : tl.getLast? with
      | none => rw [hlm] at hb; exact absurd hb (by simp)
      | some m =>
        rw [hlm] at hb
        have hbm : b = tileCenter m := by simpa using hb.symm
        rw [hbm]
        show adjacent8 _ _ = true
        rw [floor_tileCenter, floor_tileCenter]
        exact hlast m hlm
    · rw [List.chain'_reverse]
      have hconv : ∀ a b : Tile, (fun x y => adjacent8 y x = true) a b →
          (flip centerAdj) (tileCenter a) (tileCenter b) := by
        intro a b hab
        show centerAdj (tileCenter b) (tileCenter a)
        unfold centerAdj
        rw [floor_tileCenter, floor_tileCenter]
        exact hab
      exact List.chain'_map_of_chain' tileCenter hconv hchain
  · intro q hq
    simp only [List.tail_cons] at hq
    obtain ⟨m, hm1, hm2⟩ := List.mem_map.mp (List.mem_reverse.mp hq)
    obtain ⟨hterr, hblock⟩ := hkey m hm1
    rw [← hm2, floor_tileCenter_fst, floor_tileCenter_snd, Prod.mk.eta]
    exact ⟨hterr, hblock⟩

/-- The concrete terrain oracle of the C1 counterexample: every tile is
valid except `(0,0)`. -/
def ceTerrain : ℤ → ℤ → Bool := fun x y => !(decide (x = 0) && decide (y = 0))

/-- The concrete blocked set of the C1 counterexample: nothing blocked. -/
def ceBlocked : Tile → Bool := fun _ => false

/-- C1 counterexample: starting on the invalid tile `(0,0)` with goal
`(1,0)`, `findPath` still returns the two-waypoint path whose FIRST
waypoint is the start tile's center — the start tile is never checked
against the terrain oracle (or the blocked set), so "every waypoint's
tile satisfies the terrain oracle ... except possibly the final goal
tile" is false: here the start tile `(0,0)` is not the goal tile `(1,0)`
and fails the oracle. -/
theorem c1_counterexample : ¬ C1Claim := by
  intro h
  obtain ⟨-, -, -, -, hall⟩ := h ceTerrain ceBlocked 0 0 1 0 8
    [(1/2, 1/2), (3/2, 1/2)] (by with_unfolding_all rfl)
  have hfloor1 : (⌊(1/2 : ℚ)⌋ : ℤ) = 0 := by norm_num
  have hfloorg : ((⌊(1 : ℚ)⌋ : ℤ), (⌊(0 : ℚ)⌋ : ℤ)) = (1, 0) := by norm_num
  have hmem : ((1/2 : ℚ), (1/2 : ℚ)) ∈ [((1/2 : ℚ), (1/2 : ℚ)), (3/2, 1/2)] := by
    simp
  have hne : ((⌊(1/2 : ℚ)⌋ : ℤ), (⌊(1/2 : ℚ)⌋ : ℤ)) ≠ ((⌊(1 : ℚ)⌋ : ℤ), ⌊(0 : ℚ)⌋) := by
    rw [hfloor1, hfloorg]
    decide
  have hres := (hall ((1/2 : ℚ), (1/2 : ℚ)) hmem hne).1
  rw [hfloor1] at hres
  exact absurd hres (by simp [ceTerrain])

/-- Witness for C1: the amended theorem applied to a concrete successful
call (all-valid terrain, empty blocked set, start `(0,0)`, goal `(1,1)`). -/
theorem c1_witness :
    [((1:ℚ)/2, (1:ℚ)/2), (3/2, 3/2)] ≠ [] ∧
    [((1:ℚ)/2, (1:ℚ)/2), (3/2, 3/2)].head? =
      some (tileCenter (⌊(0:ℚ)⌋, ⌊(0:ℚ)⌋)) ∧
    (∀ q ∈ [((1:ℚ)/2, (1:ℚ)/2), (3/2, 3/2)], ∃ t : Tile, q = tileCenter t) ∧
    List.Chain' centerAdj [((1:ℚ)/2, (1:ℚ)/2), (3/2, 3/2)] ∧
    (∀ q ∈ [((1:ℚ)/2, (1:ℚ)/2), (3/2, 3/2)].tail,
      (fun _ _ => true : ℤ → ℤ → Bool) ⌊q.1⌋ ⌊q.2⌋ = true ∧
      (((⌊q.1⌋ : ℤ), (⌊q.2⌋ : ℤ)) ≠ (⌊(1:ℚ)⌋, ⌊(1:ℚ)⌋) →
        (fun _ => false : Tile → Bool) (⌊q.1⌋, ⌊q.2⌋) = false)) :=
  c1_findPath_path_properties (fun _ _ => true) (fun _ => false) 0 0 1 1 8
    [((1:ℚ)/2, (1:ℚ)/2), (3/2, 3/2)] (by with_unfolding_all rfl)

/-! ## The tick loop (GameEngine.update, claims C4, C5, C6, C10)

`forEach` iterates the indices `0 .. n-1` of the entity array while the
loop body mutates entities in place; the model threads the list through an
index fold.  An animate entity's processing mutates only itself and (on an
attack) its target's `hp`/`lastAttackerId`, so the body is a pure function
returning the updated self plus an optional damaged index — object
identity is modelled by list position. -/

/-- `PATH_RECALC_INTERVAL` (= 0.4 s). -/
def PATH_RECALC_INTERVAL : ℚ := 2/5

/-- `ATTACK_RANGE_BUFFER` (= 0.05). -/
def ATTACK_RANGE_BUFFER : ℚ := 1/20

/-- `getFacingFromVector`. -/
def getFacingFromVector (dx dy : ℚ) : ℚ :=
  if dx - dy < 0 then -1 else 1

/-- `getPathLength`: sum of consecutive waypoint distances. -/
def getPathLength (o : Oracle) : List (ℚ × ℚ) → ℚ
  | [] => 0
  | [_] => 0
  | a :: b :: rest => getDistanceO o a b + getPathLength o (b :: rest)

/-- `GameEngine.buildBlockedTiles` as a membership test: a tile is blocked
when some live blocking entity (wall/house/mine/base/enemy base), not
ignored by type or id, floors onto it within bounds. -/
def buildBlockedTilesB (entities : List Entity) (ignoredTypes : List EType)
    (ignoreId : Option String) (t : Tile) : Bool :=
  entities.any (fun e =>
    (match ignoreId with | some iid => !(e.id == iid) | none => true) &&
    !(ignoredTypes.contains e.type) &&
    decide (0 < e.hp) &&
    ([EType.WALL, EType.HOUSE, EType.MINE, EType.BASE,
      EType.ENEMY_BASE].contains e.type) &&
    ((⌊e.x⌋, ⌊e.y⌋) == t) &&
    inBounds ⌊e.x⌋ ⌊e.y⌋)

/-- `GameEngine.isPositionBlocked`. -/
def isPositionBlocked (o : Oracle) (entities : List Entity) (x y : ℚ)
    (ignoreId : Option String) (ignoredTypes : List EType) : Bool :=
  entities.any (fun e =>
    (match ignoreId with | some iid => !(e.id == iid) | none => true) &&
    !(ignoredTypes.contains e.type) &&
    decide (0 < e.hp) &&
    ([EType.WALL, EType.HOUSE, EType.MINE, EType.BASE,
      EType.ENEMY_BASE].contains e.type) &&
    decide (getDistanceO o (x, y) (e.x, e.y) <
      orElseNum (some e.radius) (1/2) + 1/2))

/-- The scan of `findClosestTarget`, over indexed entities, tracking the
best `(index, entity)` with its distance (`none` = `Infinity`). -/
def fctAux (o : Oracle) (source : Entity) (targetOwners : List String)
    (excluded : List EType) :
    List (ℕ × Entity) → Option ((ℕ × Entity) × ℚ) → Option ((ℕ × Entity) × ℚ)
  | [], acc => acc
  | (i, t) :: rest, acc =>
    let acc2 :=
      if targetOwners.contains t.ownerId = true ∧ 0 < t.hp ∧
          excluded.contains t.type = false then
        let d := distE o source t
        if (match acc with
            | none => true
            | some (_, bd) => decide (d < bd)) = true then
          some ((i, t), d)
        else acc
      else acc
    fctAux o source targetOwners excluded rest acc2

/-- `GameEngine.findClosestTarget`, by index (JS returns the array object;
the index models object identity for the in-place mutation). -/
def findClosestTargetIdx (o : Oracle) (entities : List Entity)
    (source : Entity) (targetOwners : List String) (excluded : List EType) :
    Option (ℕ × Entity) :=
  (fctAux o source targetOwners excluded entities.enum none).map Prod.fst

/-- The scan of `findNearestWall`, over indexed entities. -/
def fnwAux (o : Oracle) (source : Entity) (maxDistance : ℚ) :
    List (ℕ × Entity) → Option ((ℕ × Entity) × ℚ) → Option ((ℕ × Entity) × ℚ)
  | [], acc => acc
  | (i, w) :: rest, acc =>
    let acc2 :=
      if w.type = EType.WALL ∧ 0 < w.hp then
        let d := distE o source w
        if decide (d ≤ maxDistance) &&
            (match acc with
            | none => true
            | some (_, bd) => decide (d < bd)) = true then
          some ((i, w), d)
        else acc
      else acc
    fnwAux o source maxDistance rest acc2

/-- `GameEngine.findNearestWall`, by index. -/
def findNearestWallIdx (o : Oracle) (entities : List Entity)
    (source : Entity) (maxDistance : ℚ) : Option (ℕ × Entity) :=
  (fnwAux o source maxDistance entities.enum none).map Prod.fst

/-- `fbwStep` lifted to indexed walls (same guards as `fbwStep`; the tick
loop needs the wall's position in the array to model the later in-place
`target.hp` mutation). -/
def fbwStepIdx (source target : Entity) (distToTargetSq : ℚ)
    (acc : Option ((ℕ × Entity) × ℚ)) (wall : ℕ × Entity) :
    Option ((ℕ × Entity) × ℚ) :=
  let distToWallSq := distSqE source wall.2
  if 25 < distToWallSq then acc
  else if distToTargetSq ≤ distToWallSq then acc
  else
    let wallRadius := orElseNum (some wall.2.radius) (4/5)
    let lineDistSq := distancePointToSegmentSq wall.2.x wall.2.y
      source.x source.y target.x target.y
    if wallRadius + WALL_BLOCK_TOLERANCE < 0 ∨
        (wallRadius + WALL_BLOCK_TOLERANCE) ^ 2 < lineDistSq then acc
    else
      match acc with
      | none => some (wall, distToWallSq)
      | some (bw, bd) =>
        if distToWallSq < bd then some (wall, distToWallSq) else some (bw, bd)

/-- `GameEngine.findBlockingWall`, by index. -/
def findBlockingWallIdx (entities : List Entity) (source target : Entity) :
    Option (ℕ × Entity) :=
  let walls := entities.enum.filter
    (fun p => p.2.type == EType.WALL && decide (0 < p.2.hp))
  if walls.isEmpty then none
  else
    (walls.foldl (fbwStepIdx source target (distSqE source target))
      none).map Prod.fst

/-- The blocked-move fallback shared by both movement branches: stop,
drop the path (forcing a replan), and for zombies opportunistically lock
onto a very-nearby wall. -/
def blockedMoveFallback (o : Oracle) (l1 : List Entity) (e : Entity) :
    Entity :=
  let e2 :=
    { e with vx := some 0, vy := some 0, path := none, pathIndex := none,
             pathCooldown := some PATH_RECALC_INTERVAL }
  if e2.type = EType.ZOMBIE then
    match findNearestWallIdx o l1 e2 WALL_BREAK_CLOSE_DISTANCE with
    | some (_, w) => { e2 with targetId := some w.id, pathCooldown := some 0 }
    | none => e2
  else e2

/-- One validated movement step (`newX/newY` checked against terrain and
dynamic blocking before committing), shared by the waypoint branch
(`amount = min(speed*dt, length)`) and the direct branch
(`amount = speed*dt`). -/
def tryMoveStep (o : Oracle) (l1 : List Entity) (ignoreTypes : List EType)
    (e : Entity) (dx dy length amount : ℚ) : Entity :=
  let newX := e.x + dx / length * amount
  let newY := e.y + dy / length * amount
  if o.validTerrain newX newY = true ∧
      isPositionBlocked o l1 newX newY (some e.id) ignoreTypes = false then
    { e with x := newX, y := newY, vx := some (dx / length),
             vy := some (dy / length),
             facing := some (getFacingFromVector dx dy) }
  else blockedMoveFallback o l1 e

/-- The out-of-range direct-movement fallback (`else if (entity.range &&
dist > entity.range + effectiveTargetRadius)`). -/
def directMove (o : Oracle) (dt : ℚ) (l1 : List Entity)
    (ignoreTypes : List EType) (speed : ℚ) (e : Entity) (tgt : Entity)
    (dist effR : ℚ) : Entity :=
  if numTruthy e.range = true ∧ coalesceNum e.range 0 + effR < dist then
    let dx := tgt.x - e.x
    let dy := tgt.y - e.y
    let length := o.sqrt (dx * dx + dy * dy)
    if 0 < length then tryMoveStep o l1 ignoreTypes e dx dy length (speed * dt)
    else e
  else e

/-- The attack / waypoint-follow / direct-move phase (source lines after
the wall-drop check), producing the updated self and the attacked index,
if any.  `dist` and `effR` are the values computed before the wall-drop
branch (the source does not recompute them after a retarget). -/
def attackMove (o : Oracle) (dt : ℚ) (l1 : List Entity)
    (ignoreTypes : List EType) (speed : ℚ) (e : Entity) (tj : ℕ)
    (tgt : Entity) (dist effR : ℚ) : Entity × Option ℕ :=
  if numTruthy e.range = true ∧
      dist ≤ coalesceNum e.range 0 + effR + ATTACK_RANGE_BUFFER then
    let dx := tgt.x - e.x
    let dy := tgt.y - e.y
    let e5 :=
      { e with vx := some 0, vy := some 0, path := none, pathIndex := none,
               facing := some (getFacingFromVector dx dy) }
    if (match e5.attackCooldown with
        | none => true
        | some c => decide (c ≤ 0)) = true then
      ({ e5 with attackCooldown := some 1 }, some tj)
    else (e5, none)
  else
    match e.path, e.pathIndex with
    | some pa, some pi2 =>
      if pi2 < pa.length then
        let waypoint := pa.getD pi2 (0, 0)
        let dx := waypoint.1 - e.x
        let dy := waypoint.2 - e.y
        let length := o.sqrt (dx * dx + dy * dy)
        if 0 < length then
          let step := min (speed * dt) length
          let e5 := tryMoveStep o l1 ignoreTypes e dx dy length step
          let nextIndex : ℕ :=
            (match e5.pathIndex with
              | some v => v
              | none => 0) + 1
          if o.sqrt ((waypoint.1 - e5.x) * (waypoint.1 - e5.x) +
              (waypoint.2 - e5.y) * (waypoint.2 - e5.y)) < 1/5 then
            ({ e5 with pathIndex := some nextIndex }, none)
          else (e5, none)
        else (e, none)
      else (directMove o dt l1 ignoreTypes speed e tgt dist effR, none)
    | _, _ => (directMove o dt l1 ignoreTypes speed e tgt dist effR, none)

/-- The wall-drop check plus the attack/movement phase.  `dist` and the
effective radius are computed against the pre-drop target; the source does
not recompute them when it retargets after dropping a faraway wall. -/
def dropThenAttack (o : Oracle) (dt : ℚ)
    (players : List (String × PlayerState)) (l1 : List Entity)
    (ignoreTypes : List EType) (speed : ℚ) (e : Entity) (tj : ℕ)
    (tgt : Entity) : Entity × Option ℕ :=
  let dist := distE o e tgt
  let targetRadius := orElseNum (some tgt.radius) 0
  let effR :=
    if tgt.type = EType.WALL then min targetRadius (3/5) else targetRadius
  if tgt.type = EType.WALL ∧ WALL_TARGET_MAX_DISTANCE < dist then
    let e4 :=
      { e with targetId := none, path := none, pathIndex := none,
               pathCooldown := some 0 }
    if e4.type = EType.ZOMBIE then
      match findClosestTargetIdx o l1 e4 (players.map Prod.fst)
          [EType.WALL] with
      | none => (e4, none)
      | some (pj, pt) => attackMove o dt l1 ignoreTypes speed e4 pj pt dist effR
    else (e4, none)
  else attackMove o dt l1 ignoreTypes speed e tj tgt dist effR

/-- The locked-target lookup
`this.state.entities.find(x => x.id === tid && x.hp > 0)`, by index. -/
def lockedLookup (l1 : List Entity) (tid : String) : Option (ℕ × Entity) :=
  match List.findIdx? (fun t => t.id == tid && decide (0 < t.hp)) l1 with
  | some li =>
    match l1.get? li with
    | some lt => some (li, lt)
    | none => none
  | none => none

/-- The per-entity body for animate entities (unit/zombie): target
acquisition, throttled path (re)planning with the zombie wall heuristics,
the faraway-wall drop, then attack or movement.  Returns the updated self
and the attacked index, if any. -/
def animateCore (o : Oracle) (dt : ℚ) (players : List (String × PlayerState))
    (blockedD blockedZ : Tile → Bool) (l1 : List Entity)
    (e : Entity) : Entity × Option ℕ :=
  let targetAcq : Option (ℕ × Entity) :=
    if e.type = EType.ZOMBIE then
      match findClosestTargetIdx o l1 e (players.map Prod.fst)
          [EType.WALL] with
      | none => none
      | some (pi2, pt) =>
        let locked : Option (ℕ × Entity) :=
          if strTruthy e.targetId = true then
            match e.targetId with
            | some tid => lockedLookup l1 tid
            | none => none
          else none
        match locked with
        | some (li, lt) =>
          if lt.type = EType.WALL then some (li, lt) else some (pi2, pt)
        | none => some (pi2, pt)
    else findClosestTargetIdx o l1 e ["enemy"] []
  match targetAcq with
  | none => (e, none)
  | some (ti, tgt0) =>
    let speed := max (1/10) (orElseNum e.speed 1)
    let ignoreTypes :=
      if e.type = EType.ZOMBIE then [EType.ENEMY_BASE] else []
    let blockedTiles := if e.type = EType.ZOMBIE then blockedZ else blockedD
    let pc := max 0 (coalesceNum e.pathCooldown 0 - dt)
    let e1 := { e with pathCooldown := some pc }
    let pathLen : ℕ := match e1.path with | some pa => pa.length | none => 0
    let needsNewPath : Bool :=
      decide (e1.path = none) || !(decide (e1.targetId = some tgt0.id)) ||
      decide (e1.pathIndex = none) ||
      (match e1.pathIndex with
        | none => true
        | some pi2 => decide (pathLen ≤ pi2))
    if needsNewPath = true ∧ pc ≤ 0 then
      let path0 := findPath (fun tx ty => o.validTerrain (tx : ℚ) (ty : ℚ))
        blockedTiles e1.x e1.y tgt0.x tgt0.y o.pathFuel
      let pathTime : Option ℚ :=
        path0.map (fun pa => getPathLength o pa / speed)
      let directTime := distE o e1 tgt0 / speed
      let afterWall : ℕ × Entity × Option (List (ℚ × ℚ)) :=
        if e.type = EType.ZOMBIE ∧ tgt0.type ≠ EType.WALL then
          let step1 : ℕ × Entity × Option (List (ℚ × ℚ)) :=
            match findBlockingWallIdx l1 e1 tgt0 with
            | some (wi, wt) =>
              let distToWall := distE o e1 wt
              let shouldBreakWall : Bool :=
                decide (path0 = none) ||
                (match pathTime with
                  | none => true
                  | some ptv => decide (directTime * (5/4) < ptv)) ||
                decide (distToWall ≤ WALL_BREAK_CLOSE_DISTANCE)
              if shouldBreakWall = true then
                (wi, wt,
                  findPath (fun tx ty => o.validTerrain (tx : ℚ) (ty : ℚ))
                    blockedTiles e1.x e1.y wt.x wt.y o.pathFuel)
              else (ti, tgt0, path0)
            | none => (ti, tgt0, path0)
          if step1.2.2 = none then
            match findNearestWallIdx o l1 e1 WALL_TARGET_MAX_DISTANCE with
            | some (ni, nw) =>
              (ni, nw,
                findPath (fun tx ty => o.validTerrain (tx : ℚ) (ty : ℚ))
                  blockedTiles e1.x e1.y nw.x nw.y o.pathFuel)
            | none => step1
          else step1
        else (ti, tgt0, path0)
      match afterWall with
      | (dj, dTgt, path1) =>
        let e2 :=
          match path1 with
          | some pa =>
            if 0 < pa.length then
              { e1 with path := some pa, pathIndex := some 0 }
            else { e1 with path := none, pathIndex := none }
          | none => { e1 with path := none, pathIndex := none }
        let e3 :=
          { e2 with targetId := some dTgt.id,
                    pathCooldown := some PATH_RECALC_INTERVAL }
        dropThenAttack o dt players l1 ignoreTypes speed e3 dj dTgt
    else
      let retarget : ℕ × Entity :=
        if strTruthy e1.targetId = true ∧ e1.targetId ≠ some tgt0.id then
          match e1.targetId with
          | some tid =>
            match lockedLookup l1 tid with
            | some (li, lt) => (li, lt)
            | none => (ti, tgt0)
          | none => (ti, tgt0)
        else (ti, tgt0)
      dropThenAttack o dt players l1 ignoreTypes speed e1
        retarget.1 retarget.2

/-- The cooldown decrement at the top of the loop body
(`if (entity.attackCooldown && entity.attackCooldown > 0)`). -/
def cooldownDec (dt : ℚ) (e : Entity) : Entity :=
  match e.attackCooldown with
  | some c => if 0 < c then { e with attackCooldown := some (c - dt) } else e
  | none => e

/-- In-place mutation of the entity object at index `j`. -/
def modifyAt (l : List Entity) (j : ℕ) (f : Entity → Entity) : List Entity :=
  match l.get? j with
  | some t => l.set j (f t)
  | none => l

/-- One iteration of the `forEach` body, at index `i`. -/
def updateEntityAt (o : Oracle) (dt : ℚ)
    (players : List (String × PlayerState)) (blockedD blockedZ : Tile → Bool)
    (l : List Entity) (i : ℕ) : List Entity :=
  match l.get? i with
  | none => l
  | some e0 =>
    let e := cooldownDec dt e0
    let l1 := l.set i e
    if e.type = EType.UNIT ∨ e.type = EType.ZOMBIE then
      match animateCore o dt players blockedD blockedZ l1 e with
      | (e2, dmg) =>
        let l2 := l1.set i e2
        match dmg with
        | some j =>
          modifyAt l2 j (fun t =>
            { t with hp := t.hp - orElseNum e2.damage 0,
                     lastAttackerId := some e2.ownerId })
        | none => l2
    else l1

/-- One step of the end-of-tick removal sweep (`entities.filter` with its
side effects on the player map, in array order): a dead zombie credits its
last attacker's owner with the bounty if that player exists and is not
defeated; a dead base marks its owner defeated; a dead unit decrements its
owner's population, floored at zero. -/
def sweepStep (acc : List (String × PlayerState) × List Entity)
    (e : Entity) : List (String × PlayerState) × List Entity :=
  if e.hp ≤ 0 then
    let players1 :=
      if e.type = EType.ZOMBIE ∧ strTruthy e.lastAttackerId = true then
        match e.lastAttackerId with
        | some aid =>
          match lookupPlayer acc.1 aid with
          | some killer =>
            if killer.defeated then acc.1
            else setPlayer acc.1 aid
              (fun p => { p with gold := p.gold + ZOMBIE_BOUNTY })
          | none => acc.1
        | none => acc.1
      else acc.1
    let players2 :=
      if e.type = EType.BASE ∧ e.ownerId ≠ "" then
        match lookupPlayer players1 e.ownerId with
        | some _ =>
          setPlayer players1 e.ownerId (fun p => { p with defeated := true })
        | none => players1
      else players1
    let players3 :=
      if e.type = EType.UNIT then
        match lookupPlayer players2 e.ownerId with
        | some _ =>
          setPlayer players2 e.ownerId
            (fun p => { p with currentPop := max 0 (p.currentPop - 1) })
        | none => players2
      else players2
    (players3, acc.2)
  else (acc.1, acc.2 ++ [e])

/-- The end-of-tick sweep over the whole entity list. -/
def sweep (players : List (String × PlayerState)) (entities : List Entity) :
    List (String × PlayerState) × List Entity :=
  entities.foldl sweepStep (players, [])

/-- The post-sweep win-condition evaluation. -/
def winCheck (s : GameState) : GameState :=
  let remainingPlayerBases := s.entities.filter (fun e => e.type == EType.BASE)
  let enemyBase := s.entities.find? (fun e => e.id == "enemy_base")
  if remainingPlayerBases.isEmpty then
    { s with gameOver := true, winner := some "ZOMBIES" }
  else
    match enemyBase with
    | none => { s with gameOver := true, winner := some "PLAYERS" }
    | some _ => s

/-- `GameEngine.update(deltaTime)`. -/
def update (o : Oracle) (dt : ℚ) (s : GameState) : GameState :=
  if s.gameOver then s
  else
    let blockedD := buildBlockedTilesB s.entities [] none
    let blockedZ := buildBlockedTilesB s.entities [EType.ENEMY_BASE] none
    let l2 := (List.range s.entities.length).foldl
      (updateEntityAt o dt s.players blockedD blockedZ) s.entities
    let swept := sweep s.players l2
    winCheck { s with players := swept.1, entities := swept.2 }

/-- `PLAYER_COLORS` from GameEngine. -/
def PLAYER_COLORS : List String :=
  ["#3b82f6", "#ef4444", "#22c55e", "#f59e0b", "#8b5cf6", "#ec4899",
   "#06b6d4", "#f97316"]

/-- `BASE_POSITIONS` over exact rationals (engine side; the `ℝ` copy above
serves the terrain claim C7). -/
def BASE_POSITIONSQ : List (ℚ × ℚ) :=
  [(10, 54), (20, 44), (8, 44), (18, 54), (12, 48), (22, 50), (6, 50),
   (16, 42)]

/-- The `LobbyPlayer` fields the engine reads. -/
structure LobbyP where
  id : String
  name : String
  color : String
deriving DecidableEq, Repr

/-- `createInitialState`.  `now` models `Date.now()`.  (For `playerCount`
above 8 the source would read `undefined` base positions; the model
defaults to `(0,0)` there — the claims quantify over sessions of 1..8.) -/
def createInitialState (playerCount : ℕ) (lobbyPlayers : List LobbyP)
    (now : ℤ) : GameState :=
  let enemyBaseHp : ℚ := 3000 + playerCount * 1000
  let players := (List.range playerCount).map (fun i =>
    let pid := "p" ++ toString (i + 1)
    let basePos := BASE_POSITIONSQ.getD i (0, 0)
    let lobby := lobbyPlayers.find? (fun lp => lp.id == pid)
    ((pid,
      { id := pid,
        name := match lobby with
          | some lp =>
            if lp.name = "" then "Player " ++ toString (i + 1) else lp.name
          | none => "Player " ++ toString (i + 1),
        gold := 100, currentPop := 0, maxPop := 5, basePosition := basePos,
        color := match lobby with
          | some lp => if lp.color = "" then PLAYER_COLORS.getD i "" else lp.color
          | none => PLAYER_COLORS.getD i "",
        defeated := false }) : String × PlayerState))
  let baseEntities := (List.range playerCount).map (fun i =>
    let pid := "p" ++ toString (i + 1)
    let basePos := BASE_POSITIONSQ.getD i (0, 0)
    ({ id := "base_" ++ pid, type := EType.BASE, x := basePos.1,
       y := basePos.2, hp := 1000, maxHp := 1000, radius := 3/2,
       ownerId := pid } : Entity))
  { players := players,
    entities := baseEntities ++
      [{ id := "enemy_base", type := EType.ENEMY_BASE, x := 54, y := 10,
         hp := enemyBaseHp, maxHp := enemyBaseHp, radius := 2,
         ownerId := "enemy" }],
    lastTick := now, gameOver := false, winner := none, waveNumber := 1,
    playerCount := some playerCount }

/-- `GameEngine.spawnZombie`; `playerCount` models the engine's
constructor field, `newId`/`off` the random id and spawn-ring offset. -/
def spawnZombie (s : GameState) (playerCount : ℕ) (newId : String)
    (off : ℚ × ℚ) : GameState :=
  match s.entities.find? (fun e => e.type == EType.ENEMY_BASE) with
  | none => s
  | some enemyBase =>
    let playerMultiplier : ℚ := 1 + ((playerCount : ℚ) - 1) * (3/10)
    let hpz : ℤ := ⌊((30 : ℚ) + s.waveNumber * 5) * playerMultiplier⌋
    let dmz : ℤ := ⌊((5 : ℚ) + s.waveNumber * 1) * playerMultiplier⌋
    { s with entities := s.entities ++
        [{ id := newId, type := EType.ZOMBIE, x := enemyBase.x + off.1,
           y := enemyBase.y + off.2, hp := (hpz : ℚ), maxHp := (hpz : ℚ),
           radius := 2/5, ownerId := "enemy", damage := some (dmz : ℚ),
           range := some (4/5), speed := some (4/5),
           attackCooldown := some 0 }] }

/-- States reachable from a fresh session through the engine's public
operations. -/
inductive Reachable : GameState → Prop
  | init (playerCount : ℕ) (lobbyPlayers : List LobbyP) (now : ℤ) :
      Reachable (createInitialState playerCount lobbyPlayers now)
  | step_update (s : GameState) (o : Oracle) (dt : ℚ) :
      Reachable s → Reachable (update o dt s)
  | step_spawnUnit (s : GameState) (pid : String) (key : UnitTypeKey)
      (newId : String) (off : ℚ × ℚ) :
      Reachable s → Reachable (spawnUnit s pid key newId off)
  | step_buildHouse (o : Oracle) (s : GameState) (pid : String) (x y : ℚ)
      (newId : String) :
      Reachable s → Reachable (buildHouse o s pid x y newId)
  | step_buildMine (o : Oracle) (s : GameState) (pid : String) (x y : ℚ)
      (newId : String) :
      Reachable s → Reachable (buildMine o s pid x y newId)
  | step_buildWall (o : Oracle) (s : GameState) (pid : String) (x y : ℚ)
      (newId : String) :
      Reachable s → Reachable (buildWall o s pid x y newId)
  | step_spawnZombie (s : GameState) (playerCount : ℕ) (newId : String)
      (off : ℚ × ℚ) :
      Reachable s → Reachable (spawnZombie s playerCount newId off)

/-- The winner tag is a single value among `null`, `PLAYERS`, `ZOMBIES`. -/
def winnerOk (s : GameState) : Prop :=
  s.winner = none ∨ s.winner = some "PLAYERS" ∨ s.winner = some "ZOMBIES"

lemma spawnUnit_winner (s : GameState) (pid : String) (key : UnitTypeKey)
    (newId : String) (off : ℚ × ℚ) :
    (spawnUnit s pid key newId off).winner = s.winner := by
  unfold spawnUnit
  rcases hl : lookupPlayer s.players pid with _ | player
  · simp only [hl]
  · simp only [hl]
    by_cases hd : player.defeated
    · rw [if_pos hd]
    · rw [if_neg hd]
      by_cases hc : (UNIT_TYPES key).cost ≤ player.gold ∧
          player.currentPop < player.maxPop
      · rw [if_pos hc]
      · rw [if_neg hc]

lemma buildHouse_winner (o : Oracle) (s : GameState) (pid : String)
    (x y : ℚ) (newId : String) :
    (buildHouse o s pid x y newId).winner = s.winner := by
  unfold buildHouse
  rcases hl : lookupPlayer s.players pid with _ | player
  · simp only [hl]
  · simp only [hl]
    by_cases hd : player.defeated
    · rw [if_pos hd]
    · rw [if_neg hd]
      by_cases hc : (50 : ℚ) ≤ player.gold ∧
          getDistanceO o (snapToTileCoord x, snapToTileCoord y)
            player.basePosition ≤ BUILD_RADIUS ∧
          occupiedAt s.entities (snapToTileCoord x) (snapToTileCoord y) = false ∧
          o.validTerrain (snapToTileCoord x) (snapToTileCoord y) = true
      · rw [if_pos hc]
      · rw [if_neg hc]

lemma buildMine_winner (o : Oracle) (s : GameState) (pid : String)
    (x y : ℚ) (newId : String) :
    (buildMine o s pid x y newId).winner = s.winner := by
  unfold buildMine
  rcases hl : lookupPlayer s.players pid with _ | player
  · simp only [hl]
  · simp only [hl]
    by_cases hd : player.defeated
    · rw [if_pos hd]
    · rw [if_neg hd]
      by_cases hc : MINE_COST ≤ player.gold ∧
          getDistanceO o (snapToTileCoord x, snapToTileCoord y)
            player.basePosition ≤ BUILD_RADIUS ∧
          occupiedAt s.entities (snapToTileCoord x) (snapToTileCoord y) = false ∧
          o.validTerrain (snapToTileCoord x) (snapToTileCoord y) = true
      · rw [if_pos hc]
      · rw [if_neg hc]

lemma buildWall_winner (o : Oracle) (s : GameState) (pid : String)
    (x y : ℚ) (newId : String) :
    (buildWall o s pid x y newId).winner = s.winner := by
  unfold buildWall
  rcases hl : lookupPlayer s.players pid with _ | player
  · simp only [hl]
  · simp only [hl]
    by_cases hd : player.defeated
    · rw [if_pos hd]
    · rw [if_neg hd]
      by_cases hc : WALL_COST ≤ player.gold ∧
          occupiedAt s.entities (snapToTileCoord x) (snapToTileCoord y) = false ∧
          o.validTerrain (snapToTileCoord x) (snapToTileCoord y) = true
      · rw [if_pos hc]
      · rw [if_neg hc]

lemma spawnZombie_winner (s : GameState) (playerCount : ℕ) (newId : String)
    (off : ℚ × ℚ) :
    (spawnZombie s playerCount newId off).winner = s.winner := by
  unfold spawnZombie
  rcases hl : s.entities.find? (fun e => e.type == EType.ENEMY_BASE) with _ | enemyBase
  · simp only [hl]
  · simp only [hl]

lemma winCheck_winnerOk (s : GameState) (h : winnerOk s) :
    winnerOk (winCheck s) := by
  unfold winCheck
  by_cases h1 : (s.entities.filter (fun e => e.type == EType.BASE)).isEmpty
  · rw [if_pos h1]
    right; right; rfl
  · rw [if_neg h1]
    rcases hl : s.entities.find? (fun e => e.id == "enemy_base") with _ | eb
    · simp only [hl]
      right; left; rfl
    · simp only [hl]
      exact h

lemma update_winnerOk (o : Oracle) (dt : ℚ) (s : GameState)
    (h : winnerOk s) : winnerOk (update o dt s) := by
  unfold update
  by_cases hg : s.gameOver
  · rw [if_pos hg]; exact h
  · rw [if_neg hg]
    apply winCheck_winnerOk
    exact h

lemma update_frozen (o : Oracle) (dt : ℚ) (s : GameState)
    (h : s.gameOver = true) : update o dt s = s := by
  unfold update
  rw [if_pos h]

/-- Claim C5: (1) in every reachable state the winner tag is a single
value — `null`, `"PLAYERS"` or `"ZOMBIES"` — so the game never declares
both sides winners at once; (2) once `gameOver` is true, `update` returns
the state unchanged, so neither `winner` nor `gameOver` ever changes on a
subsequent tick. -/
theorem c5_winner_exclusive_and_frozen :
    (∀ s : GameState, Reachable s → winnerOk s) ∧
    (∀ (s : GameState) (o : Oracle) (dt : ℚ), s.gameOver = true →
      update o dt s = s) := by
  constructor
  · intro s hs
    induction hs with
    | init playerCount lobbyPlayers now => left; rfl
    | step_update s o dt _ ih => exact update_winnerOk o dt s ih
    | step_spawnUnit s pid key newId off _ ih =>
      unfold winnerOk
      rw [spawnUnit_winner]
      exact ih
    | step_buildHouse o s pid x y newId _ ih =>
      unfold winnerOk
      rw [buildHouse_winner]
      exact ih
    | step_buildMine o s pid x y newId _ ih =>
      unfold winnerOk
      rw [buildMine_winner]
      exact ih
    | step_buildWall o s pid x y newId _ ih =>
      unfold winnerOk
      rw [buildWall_winner]
      exact ih
    | step_spawnZombie s playerCount newId off _ ih =>
      unfold winnerOk
      rw [spawnZombie_winner]
      exact ih
  · intro s o dt h
    exact update_frozen o dt s h

/-- A stopped oracle used by witnesses (its values never matter for the
claims; any oracle would do). -/
def witnessOracle : Oracle :=
  { sqrt := fun _ => 0, validTerrain := fun _ _ => true, pathFuel := 0 }

/-- Witness for C5: the fresh 1-player session has a single-valued winner
tag, and `update` leaves a game-over state untouched. -/
theorem c5_witness :
    winnerOk (createInitialState 1 [] 0) ∧
    update witnessOracle 1 { witnessState with gameOver := true } =
      { witnessState with gameOver := true } :=
  ⟨c5_winner_exclusive_and_frozen.1 (createInitialState 1 [] 0)
      (Reachable.init 1 [] 0),
    c5_winner_exclusive_and_frozen.2 { witnessState with gameOver := true }
      witnessOracle 1 rfl⟩

/-- Player `pid` exists and is flagged defeated. -/
def DefeatedAt (players : List (String × PlayerState)) (pid : String) :
    Prop :=
  ∃ p, lookupPlayer players pid = some p ∧ p.defeated = true

lemma defeatedAt_setPlayer (players : List (String × PlayerState))
    (pid q : String) (f : PlayerState → PlayerState)
    (hf : ∀ x, x.defeated = true → (f x).defeated = true)
    (h : DefeatedAt players pid) : DefeatedAt (setPlayer players q f) pid := by
  obtain ⟨p, hp, hd⟩ := h
  by_cases hq : pid = q
  · subst hq
    refine ⟨f p, ?_, hf p hd⟩
    rw [lookup_setPlayer, hp]
    rfl
  · refine ⟨p, ?_, hd⟩
    rw [lookup_setPlayer_ne players q pid f hq]
    exact hp

lemma sweepStep_defeated (players : List (String × PlayerState))
    (kept : List Entity) (e : Entity) (pid : String)
    (h : DefeatedAt players pid) :
    DefeatedAt (sweepStep (players, kept) e).1 pid := by
  unfold sweepStep
  by_cases hdead : e.hp ≤ 0
  · rw [if_pos hdead]
    have h1 : DefeatedAt
        (if e.type = EType.ZOMBIE ∧ strTruthy e.lastAttackerId = true then
          match e.lastAttackerId with
          | some aid =>
            match lookupPlayer players aid with
            | some killer =>
              if killer.defeated then players
              else setPlayer players aid
                (fun p => { p with gold := p.gold + ZOMBIE_BOUNTY })
            | none => players
          | none => players
        else players) pid := by
      by_cases hc : e.type = EType.ZOMBIE ∧ strTruthy e.lastAttackerId = true
      · rw [if_pos hc]
        rcases e.lastAttackerId with _ | aid
        · exact h
        · rcases hlk : lookupPlayer players aid with _ | killer
          · simp only [hlk]; exact h
          · simp only [hlk]
            by_cases hkd : killer.defeated
            · rw [if_pos hkd]; exact h
            · rw [if_neg hkd]
              exact defeatedAt_setPlayer players pid aid _ (fun x hx => hx) h
      · rw [if_neg hc]; exact h
    have h2 : ∀ ps, DefeatedAt ps pid → DefeatedAt
        (if e.type = EType.BASE ∧ e.ownerId ≠ "" then
          match lookupPlayer ps e.ownerId with
          | some _ =>
            setPlayer ps e.ownerId (fun p => { p with defeated := true })
          | none => ps
        else ps) pid := by
      intro ps hps
      by_cases hc : e.type = EType.BASE ∧ e.ownerId ≠ ""
      · rw [if_pos hc]
        rcases hlk : lookupPlayer ps e.ownerId with _ | q
        · simp only [hlk]; exact hps
        · simp only [hlk]
          exact defeatedAt_setPlayer ps pid e.ownerId _ (fun x _ => rfl) hps
      · rw [if_neg hc]; exact hps
    have h3 : ∀ ps, DefeatedAt ps pid → DefeatedAt
        (if e.type = EType.UNIT then
          match lookupPlayer ps e.ownerId with
          | some _ =>
            setPlayer ps e.ownerId
              (fun p => { p with currentPop := max 0 (p.currentPop - 1) })
          | none => ps
        else ps) pid := by
      intro ps hps
      by_cases hc : e.type = EType.UNIT
      · rw [if_pos hc]
        rcases hlk : lookupPlayer ps e.ownerId with _ | q
        · simp only [hlk]; exact hps
        · simp only [hlk]
          exact defeatedAt_setPlayer ps pid e.ownerId _ (fun x hx => hx) hps
      · rw [if_neg hc]; exact hps
    exact h3 _ (h2 _ h1)
  · rw [if_neg hdead]
    exact h

lemma sweep_defeated (entities : List Entity) :
    ∀ (players : List (String × PlayerState)) (kept : List Entity)
      (pid : String), DefeatedAt players pid →
    DefeatedAt (entities.foldl sweepStep (players, kept)).1 pid := by
  induction entities with
  | nil => intro players kept pid h; exact h
  | cons e rest ih =>
    intro players kept pid h
    simp only [List.foldl_cons]
    have hstep := sweepStep_defeated players kept e pid h
    rcases hres : sweepStep (players, kept) e with ⟨players2, kept2⟩
    rw [hres] at hstep
    exact ih players2 kept2 pid hstep

lemma winCheck_players (s : GameState) :
    (winCheck s).players = s.players := by
  unfold winCheck
  by_cases h1 : (s.entities.filter (fun e => e.type == EType.BASE)).isEmpty
  · rw [if_pos h1]
  · rw [if_neg h1]
    rcases hl : s.entities.find? (fun e => e.id == "enemy_base") with _ | eb <;>
      simp only [hl]

lemma update_defeated (o : Oracle) (dt : ℚ) (s : GameState) (pid : String)
    (h : DefeatedAt s.players pid) :
    DefeatedAt (update o dt s).players pid := by
  unfold update
  by_cases hg : s.gameOver
  · rw [if_pos hg]; exact h
  · rw [if_neg hg]
    rw [winCheck_players]
    exact sweep_defeated _ s.players [] pid h

/-- Claim C6: a player whose defeated flag is set stays defeated under
every engine operation, and all of that player's own build/spawn
operations are exact no-ops. -/
theorem c6_defeat_permanence (s : GameState) (pid : String)
    (h : DefeatedAt s.players pid) :
    (∀ key newId off, spawnUnit s pid key newId off = s) ∧
    (∀ o x y newId, buildHouse o s pid x y newId = s) ∧
    (∀ o x y newId, buildMine o s pid x y newId = s) ∧
    (∀ o x y newId, buildWall o s pid x y newId = s) ∧
    (∀ o dt, DefeatedAt (update o dt s).players pid) ∧
    (∀ qid key newId off,
      DefeatedAt (spawnUnit s qid key newId off).players pid) ∧
    (∀ o qid x y newId,
      DefeatedAt (buildHouse o s qid x y newId).players pid) ∧
    (∀ o qid x y newId,
      DefeatedAt (buildMine o s qid x y newId).players pid) ∧
    (∀ o qid x y newId,
      DefeatedAt (buildWall o s qid x y newId).players pid) ∧
    (∀ playerCount newId off,
      DefeatedAt (spawnZombie s playerCount newId off).players pid) := by
  obtain ⟨p, hp, hd⟩ := h
  refine ⟨?_, ?_, ?_, ?_, ?_, ?_, ?_, ?_, ?_, ?_⟩
  · intro key newId off
    unfold spawnUnit
    simp only [hp, hd, if_true]
  · intro o x y newId
    unfold buildHouse
    simp only [hp, hd, if_true]
  · intro o x y newId
    unfold buildMine
    simp only [hp, hd, if_true]
  · intro o x y newId
    unfold buildWall
    simp only [hp, hd, if_true]
  · intro o dt
    exact update_defeated o dt s pid ⟨p, hp, hd⟩
  · intro qid key newId off
    unfold spawnUnit
    rcases hl : lookupPlayer s.players qid with _ | q
    · simp only [hl]; exact ⟨p, hp, hd⟩
    · simp only [hl]
      by_cases hqd : q.defeated
      · rw [if_pos hqd]; exact ⟨p, hp, hd⟩
      · rw [if_neg hqd]
        by_cases hc : (UNIT_TYPES key).cost ≤ q.gold ∧
            q.currentPop < q.maxPop
        · rw [if_pos hc]
          exact defeatedAt_setPlayer s.players pid qid
            (fun p2 => { p2 with gold := p2.gold - (UNIT_TYPES key).cost, currentPop := p2.currentPop + 1 })
            (fun x hx => hx) ⟨p, hp, hd⟩
        · rw [if_neg hc]; exact ⟨p, hp, hd⟩
  · intro o qid x y newId
    unfold buildHouse
    rcases hl : lookupPlayer s.players qid with _ | q
    · simp only [hl]; exact ⟨p, hp, hd⟩
    · simp only [hl]
      by_cases hqd : q.defeated
      · rw [if_pos hqd]; exact ⟨p, hp, hd⟩
      · rw [if_neg hqd]
        by_cases hc : (50 : ℚ) ≤ q.gold ∧
            getDistanceO o (snapToTileCoord x, snapToTileCoord y)
              q.basePosition ≤ BUILD_RADIUS ∧
            occupiedAt s.entities (snapToTileCoord x)
              (snapToTileCoord y) = false ∧
            o.validTerrain (snapToTileCoord x) (snapToTileCoord y) = true
        · rw [if_pos hc]
          exact defeatedAt_setPlayer s.players pid qid
            (fun p2 => { p2 with gold := p2.gold - 50, maxPop := p2.maxPop + 5 })
            (fun x hx => hx) ⟨p, hp, hd⟩
        · rw [if_neg hc]; exact ⟨p, hp, hd⟩
  · intro o qid x y newId
    unfold buildMine
    rcases hl : lookupPlayer s.players qid with _ | q
    · simp only [hl]; exact ⟨p, hp, hd⟩
    · simp only [hl]
      by_cases hqd : q.defeated
      · rw [if_pos hqd]; exact ⟨p, hp, hd⟩
      · rw [if_neg hqd]
        by_cases hc : MINE_COST ≤ q.gold ∧
            getDistanceO o (snapToTileCoord x, snapToTileCoord y)
              q.basePosition ≤ BUILD_RADIUS ∧
            occupiedAt s.entities (snapToTileCoord x)
              (snapToTileCoord y) = false ∧
            o.validTerrain (snapToTileCoord x) (snapToTileCoord y) = true
        · rw [if_pos hc]
          exact defeatedAt_setPlayer s.players pid qid
            (fun p2 => { p2 with gold := p2.gold - MINE_COST })
            (fun x hx => hx) ⟨p, hp, hd⟩
        · rw [if_neg hc]; exact ⟨p, hp, hd⟩
  · intro o qid x y newId
    unfold buildWall
    rcases hl : lookupPlayer s.players qid with _ | q
    · simp only [hl]; exact ⟨p, hp, hd⟩
    · simp only [hl]
      by_cases hqd : q.defeated
      · rw [if_pos hqd]; exact ⟨p, hp, hd⟩
      · rw [if_neg hqd]
        by_cases hc : WALL_COST ≤ q.gold ∧
            occupiedAt s.entities (snapToTileCoord x)
              (snapToTileCoord y) = false ∧
            o.validTerrain (snapToTileCoord x) (snapToTileCoord y) = true
        · rw [if_pos hc]
          exact defeatedAt_setPlayer s.players pid qid
            (fun p2 => { p2 with gold := p2.gold - WALL_COST })
            (fun x hx => hx) ⟨p, hp, hd⟩
        · rw [if_neg hc]; exact ⟨p, hp, hd⟩
  · intro playerCount newId off
    unfold spawnZombie
    rcases hl : s.entities.find? (fun e => e.type == EType.ENEMY_BASE)
        with _ | eb
    · simp only [hl]; exact ⟨p, hp, hd⟩
    · simp only [hl]; exact ⟨p, hp, hd⟩

/-- A defeated concrete player for the C6 witness. -/
def defeatedPlayer : PlayerState := { witnessPlayer with defeated := true }

/-- The C6 witness state. -/
def defeatedState : GameState :=
  { witnessState with players := [("p1", defeatedPlayer)] }

/-- Witness for C6: the defeated player's spawn is a no-op and the flag
survives an `update` tick. -/
theorem c6_witness :
    spawnUnit defeatedState "p1" .SOLDIER "u1" (2, 0) = defeatedState ∧
    DefeatedAt (update witnessOracle 1 defeatedState).players "p1" := by
  have h := c6_defeat_permanence defeatedState "p1"
    ⟨defeatedPlayer, by decide, rfl⟩
  exact ⟨h.1 .SOLDIER "u1" (2, 0), h.2.2.2.2.1 witnessOracle 1⟩

lemma sweepStep_zombie (players : List (String × PlayerState))
    (kept : List Entity) (e : Entity) (hdead : e.hp ≤ 0)
    (hz : e.type = EType.ZOMBIE) :
    sweepStep (players, kept) e =
      ((if strTruthy e.lastAttackerId = true then
          match e.lastAttackerId with
          | some aid =>
            match lookupPlayer players aid with
            | some killer =>
              if killer.defeated then players
              else setPlayer players aid
                (fun p => { p with gold := p.gold + ZOMBIE_BOUNTY })
            | none => players
          | none => players
        else players), kept) := by
  unfold sweepStep
  rw [if_pos hdead]
  simp [hz]

/-- Claim C4: in the end-of-tick sweep (the fold of `sweepStep` that
`update` runs after the entity loop), a removed zombie (`hp ≤ 0`) credits
the fixed `ZOMBIE_BOUNTY` to exactly one player — the owner recorded as
its last attacker — and only when that player exists and is not defeated;
the gold of every other player is unchanged, and when the credit does not
apply the whole player map is unchanged.  The zombie itself is not kept. -/
theorem c4_zombie_bounty_credit (players : List (String × PlayerState))
    (kept : List Entity) (e : Entity) (hdead : e.hp ≤ 0)
    (hz : e.type = EType.ZOMBIE) :
    (sweepStep (players, kept) e).2 = kept ∧
    (∀ aid killer, e.lastAttackerId = some aid → aid ≠ "" →
      lookupPlayer players aid = some killer →
      (killer.defeated = false →
        lookupPlayer (sweepStep (players, kept) e).1 aid =
          some { killer with gold := killer.gold + ZOMBIE_BOUNTY } ∧
        ∀ qid, qid ≠ aid →
          lookupPlayer (sweepStep (players, kept) e).1 qid =
            lookupPlayer players qid) ∧
      (killer.defeated = true → (sweepStep (players, kept) e).1 = players)) ∧
    ((e.lastAttackerId = none ∨ e.lastAttackerId = some "") →
      (sweepStep (players, kept) e).1 = players) ∧
    (∀ aid, e.lastAttackerId = some aid → lookupPlayer players aid = none →
      (sweepStep (players, kept) e).1 = players) := by
  rw [sweepStep_zombie players kept e hdead hz]
  refine ⟨rfl, ?_, ?_, ?_⟩
  · intro aid killer ha hane hlk
    have htruthy : strTruthy e.lastAttackerId = true := by
      rw [ha]
      simpa [strTruthy] using hane
    constructor
    · intro hkd
      rw [if_pos htruthy]
      simp only [ha, hlk]
      rw [if_neg (by rw [hkd]; exact Bool.false_ne_true)]
      constructor
      · rw [lookup_setPlayer, hlk]
        simp [hkd]
      · intro qid hq
        exact lookup_setPlayer_ne players aid qid _ hq
    · intro hkd
      rw [if_pos htruthy]
      simp only [ha, hlk]
      rw [if_pos hkd]
  · intro h
    rcases h with h | h
    · have : strTruthy e.lastAttackerId = false := by rw [h]; rfl
      rw [if_neg (by rw [this]; exact Bool.false_ne_true)]
    · have : strTruthy e.lastAttackerId = false := by
        rw [h]; simp [strTruthy]
      rw [if_neg (by rw [this]; exact Bool.false_ne_true)]
  · intro aid ha hnone
    by_cases htruthy : strTruthy e.lastAttackerId = true
    · rw [if_pos htruthy]
      simp only [ha, hnone]
    · rw [if_neg htruthy]

/-- A dead zombie credited to `p1` for the C4 witness. -/
def deadZombie : Entity :=
  { id := "z9", type := .ZOMBIE, x := 5, y := 5, hp := 0, maxHp := 30,
    radius := 2/5, ownerId := "enemy", lastAttackerId := some "p1" }

/-- Witness for C4: sweeping the dead zombie pays exactly `p1` the
10-gold bounty. -/
theorem c4_witness :
    (sweepStep ([("p1", witnessPlayer)], []) deadZombie).2 = [] ∧
    lookupPlayer (sweepStep ([("p1", witnessPlayer)], []) deadZombie).1 "p1" =
      some { witnessPlayer with gold := witnessPlayer.gold + ZOMBIE_BOUNTY } := by
  have h := c4_zombie_bounty_credit [("p1", witnessPlayer)] [] deadZombie
    (by decide) rfl
  have h2 := (h.2.1 "p1" witnessPlayer rfl (by decide) (by decide)).1 rfl
  exact ⟨h.1, h2.1⟩

lemma blockedMoveFallback_pres (o : Oracle) (l1 : List Entity) (e : Entity) :
    (blockedMoveFallback o l1 e).id = e.id ∧
    (blockedMoveFallback o l1 e).type = e.type := by
  simp only [blockedMoveFallback]
  split
  · split
    · exact ⟨rfl, rfl⟩
    · exact ⟨rfl, rfl⟩
  · exact ⟨rfl, rfl⟩

lemma tryMoveStep_pres (o : Oracle) (l1 : List Entity)
    (ignoreTypes : List EType) (e : Entity) (dx dy length amount : ℚ) :
    (tryMoveStep o l1 ignoreTypes e dx dy length amount).id = e.id ∧
    (tryMoveStep o l1 ignoreTypes e dx dy length amount).type = e.type := by
  simp only [tryMoveStep]
  split
  · exact ⟨rfl, rfl⟩
  · exact blockedMoveFallback_pres o l1 e

lemma directMove_pres (o : Oracle) (dt : ℚ) (l1 : List Entity)
    (ignoreTypes : List EType) (speed : ℚ) (e : Entity) (tgt : Entity)
    (dist effR : ℚ) :
    (directMove o dt l1 ignoreTypes speed e tgt dist effR).id = e.id ∧
    (directMove o dt l1 ignoreTypes speed e tgt dist effR).type = e.type := by
  simp only [directMove]
  split
  · split
    · exact tryMoveStep_pres o l1 ignoreTypes e _ _ _ _
    · exact ⟨rfl, rfl⟩
  · exact ⟨rfl, rfl⟩

lemma attackMove_pres (o : Oracle) (dt : ℚ) (l1 : List Entity)
    (ignoreTypes : List EType) (speed : ℚ) (e : Entity) (tj : ℕ)
    (tgt : Entity) (dist effR : ℚ) :
    (attackMove o dt l1 ignoreTypes speed e tj tgt dist effR).1.id = e.id ∧
    (attackMove o dt l1 ignoreTypes speed e tj tgt dist effR).1.type =
      e.type := by
  simp only [attackMove]
  split
  · split
    · exact ⟨rfl, rfl⟩
    · exact ⟨rfl, rfl⟩
  · split
    · split
      · split
        · split
          · exact ⟨(tryMoveStep_pres o l1 ignoreTypes e _ _ _ _).1,
              (tryMoveStep_pres o l1 ignoreTypes e _ _ _ _).2⟩
          · exact tryMoveStep_pres o l1 ignoreTypes e _ _ _ _
        · exact ⟨rfl, rfl⟩
      · exact directMove_pres o dt l1 ignoreTypes speed e tgt dist effR
    · exact directMove_pres o dt l1 ignoreTypes speed e tgt dist effR

lemma dropThenAttack_pres (o : Oracle) (dt : ℚ)
    (players : List (String × PlayerState)) (l1 : List Entity)
    (ignoreTypes : List EType) (speed : ℚ) (e : Entity) (tj : ℕ)
    (tgt : Entity) :
    (dropThenAttack o dt players l1 ignoreTypes speed e tj tgt).1.id = e.id ∧
    (dropThenAttack o dt players l1 ignoreTypes speed e tj tgt).1.type =
      e.type := by
  simp only [dropThenAttack]
  split
  · split
    · split
      · exact ⟨rfl, rfl⟩
      · exact ⟨(attackMove_pres o dt l1 ignoreTypes speed _ _ _ _ _).1.trans
          rfl, (attackMove_pres o dt l1 ignoreTypes speed _ _ _ _ _).2.trans
          rfl⟩
    · exact ⟨rfl, rfl⟩
  · exact attackMove_pres o dt l1 ignoreTypes speed e tj tgt _ _

lemma animateCore_pres (o : Oracle) (dt : ℚ)
    (players : List (String × PlayerState)) (blockedD blockedZ : Tile → Bool)
    (l1 : List Entity) (e : Entity) :
    (animateCore o dt players blockedD blockedZ l1 e).1.id = e.id ∧
    (animateCore o dt players blockedD blockedZ l1 e).1.type = e.type := by
  simp only [animateCore]
  split
  · exact ⟨rfl, rfl⟩
  · refine ⟨?_, ?_⟩ <;>
    · repeat' split
      all_goals
        first
        | rfl
        | exact (dropThenAttack_pres o dt players l1 _ _ _ _ _).1
        | exact (dropThenAttack_pres o dt players l1 _ _ _ _ _).2

/-- The frame relation for one entity slot: identity and type are always
preserved, and the position is preserved whenever the original entity is
immobile (neither a unit nor a zombie). -/
def immPres (e1 e2 : Entity) : Prop :=
  e2.id = e1.id ∧ e2.type = e1.type ∧
    (e1.type ≠ EType.UNIT → e1.type ≠ EType.ZOMBIE →
      e2.x = e1.x ∧ e2.y = e1.y)

lemma immPres_refl (e : Entity) : immPres e e :=
  ⟨rfl, rfl, fun _ _ => ⟨rfl, rfl⟩⟩

lemma immPres_trans {e1 e2 e3 : Entity} (h12 : immPres e1 e2)
    (h23 : immPres e2 e3) : immPres e1 e3 := by
  obtain ⟨hi, ht, hxy⟩ := h12
  obtain ⟨hi2, ht2, hxy2⟩ := h23
  refine ⟨hi2.trans hi, ht2.trans ht, fun hu hz => ?_⟩
  have h1 := hxy hu hz
  have h2 := hxy2 (by rw [ht]; exact hu) (by rw [ht]; exact hz)
  exact ⟨h2.1.trans h1.1, h2.2.trans h1.2⟩

lemma cooldownDec_pres (dt : ℚ) (e : Entity) :
    (cooldownDec dt e).id = e.id ∧ (cooldownDec dt e).type = e.type ∧
    (cooldownDec dt e).x = e.x ∧ (cooldownDec dt e).y = e.y := by
  simp only [cooldownDec]
  split
  · split
    · exact ⟨rfl, rfl, rfl, rfl⟩
    · exact ⟨rfl, rfl, rfl, rfl⟩
  · exact ⟨rfl, rfl, rfl, rfl⟩

/-- The frame relation between whole entity arrays: same length, and slot
`k` of the new array refines slot `k` of the old one. -/
def listImmPres (l l2 : List Entity) : Prop :=
  l2.length = l.length ∧
  ∀ k e1, l.get? k = some e1 → ∃ e2, l2.get? k = some e2 ∧ immPres e1 e2

lemma listImmPres_refl (l : List Entity) : listImmPres l l :=
  ⟨rfl, fun _ e1 h => ⟨e1, h, immPres_refl e1⟩⟩

lemma listImmPres_trans {l1 l2 l3 : List Entity} (h12 : listImmPres l1 l2)
    (h23 : listImmPres l2 l3) : listImmPres l1 l3 := by
  obtain ⟨hl, hp⟩ := h12
  obtain ⟨hl2, hp2⟩ := h23
  refine ⟨hl2.trans hl, fun k e1 h => ?_⟩
  obtain ⟨e2, h2, hr12⟩ := hp k e1 h
  obtain ⟨e3, h3, hr23⟩ := hp2 k e2 h2
  exact ⟨e3, h3, immPres_trans hr12 hr23⟩

lemma listImmPres_set {l : List Entity} {i : ℕ} {e0 e' : Entity}
    (h0 : l.get? i = some e0) (hp : immPres e0 e') :
    listImmPres l (l.set i e') := by
  refine ⟨l.length_set i e', fun k e1 h => ?_⟩
  by_cases hk : k = i
  · subst hk
    have he : e1 = e0 := by rw [h0] at h; exact (Option.some.inj h).symm
    subst he
    have hlt : k < l.length := (List.get?_eq_some.mp h0).1
    exact ⟨e', List.get?_set_eq_of_lt e' hlt, hp⟩
  · exact ⟨e1, (List.get?_set_ne e' l (fun hik => hk hik.symm)).trans h,
      immPres_refl e1⟩

lemma listImmPres_modifyAt (l : List Entity) (j : ℕ) (f : Entity → Entity)
    (hf : ∀ t, immPres t (f t)) : listImmPres l (modifyAt l j f) := by
  rcases hj : l.get? j with _ | t <;> simp only [modifyAt, hj]
  · exact listImmPres_refl l
  · exact listImmPres_set hj (hf t)

lemma updateEntityAt_listImmPres (o : Oracle) (dt : ℚ)
    (players : List (String × PlayerState)) (blockedD blockedZ : Tile → Bool)
    (l : List Entity) (i : ℕ) :
    listImmPres l (updateEntityAt o dt players blockedD blockedZ l i) := by
  rcases h0 : l.get? i with _ | e0 <;> simp only [updateEntityAt, h0]
  · exact listImmPres_refl l
  · have himm0 : immPres e0 (cooldownDec dt e0) := by
      obtain ⟨a, b, c, d⟩ := cooldownDec_pres dt e0
      exact ⟨a, b, fun _ _ => ⟨c, d⟩⟩
    have h1 : listImmPres l (l.set i (cooldownDec dt e0)) :=
      listImmPres_set h0 himm0
    split
    · rcases hac : animateCore o dt players blockedD blockedZ
        (l.set i (cooldownDec dt e0)) (cooldownDec dt e0) with ⟨e2c, dmg⟩
      simp only [hac]
      rename_i hty
      have hi1 : (l.set i (cooldownDec dt e0)).get? i =
          some (cooldownDec dt e0) := by
        have hlt : i < l.length := (List.get?_eq_some.mp h0).1
        exact List.get?_set_eq_of_lt _ hlt
      have himm1 : immPres (cooldownDec dt e0) e2c := by
        have hpres := animateCore_pres o dt players blockedD blockedZ
          (l.set i (cooldownDec dt e0)) (cooldownDec dt e0)
        rw [hac] at hpres
        exact ⟨hpres.1, hpres.2, fun hu hz => by
          rcases hty with h | h
          · exact absurd h hu
          · exact absurd h hz⟩
      have h2 : listImmPres l ((l.set i (cooldownDec dt e0)).set i e2c) :=
        listImmPres_trans h1 (listImmPres_set hi1 himm1)
      rcases dmg with _ | j
      · exact h2
      · exact listImmPres_trans h2 (listImmPres_modifyAt _ j _
          (fun t => ⟨rfl, rfl, fun _ _ => ⟨rfl, rfl⟩⟩))
    · exact h1

lemma foldl_updateEntityAt_listImmPres (o : Oracle) (dt : ℚ)
    (players : List (String × PlayerState)) (blockedD blockedZ : Tile → Bool)
    (idxs : List ℕ) (l : List Entity) :
    listImmPres l
      (idxs.foldl (updateEntityAt o dt players blockedD blockedZ) l) := by
  induction idxs generalizing l with
  | nil => exact listImmPres_refl l
  | cons i rest ih =>
    exact listImmPres_trans
      (updateEntityAt_listImmPres o dt players blockedD blockedZ l i) (ih _)

/-- Every entity kept by the removal sweep was already in the accumulator or
in the scanned list: the sweep never invents or edits entities. -/
lemma sweep_kept_mem (entities : List Entity) :
    ∀ acc, ∀ e2 ∈ (entities.foldl sweepStep acc).2,
      e2 ∈ acc.2 ∨ e2 ∈ entities := by
  induction entities with
  | nil => exact fun acc e2 h => Or.inl h
  | cons e rest ih =>
    intro acc e2 h
    rcases ih (sweepStep acc e) e2 h with hmem | hmem
    · simp only [sweepStep] at hmem
      by_cases hd : e.hp ≤ 0
      · rw [if_pos hd] at hmem
        exact Or.inl hmem
      · rw [if_neg hd] at hmem
        simp only [List.mem_append, List.mem_singleton] at hmem
        rcases hmem with h1 | h1
        · exact Or.inl h1
        · exact Or.inr (by simp [h1])
    · exact Or.inr (List.mem_cons_of_mem e hmem)

lemma winCheck_entities (s : GameState) : (winCheck s).entities = s.entities := by
  simp only [winCheck]
  split
  · rfl
  · split <;> rfl

/-- C10: `update` never moves immobile entities — every entity surviving a
tick whose type is neither UNIT nor ZOMBIE originates from a pre-tick entity
with the same id, the same type, and exactly the same x and y coordinates
(the per-entity loop mutates positions only inside the animate branch, and
the sweep and win check copy entities verbatim). -/
theorem c10_immobile_entities_fixed (o : Oracle) (dt : ℚ) (s : GameState) :
    ∀ e2 ∈ (update o dt s).entities, e2.type ≠ EType.UNIT →
      e2.type ≠ EType.ZOMBIE →
      ∃ e1 ∈ s.entities, e1.id = e2.id ∧ e1.type = e2.type ∧
        e1.x = e2.x ∧ e1.y = e2.y := by
  intro e2 hmem hu hz
  by_cases hg : s.gameOver
  · refine ⟨e2, ?_, rfl, rfl, rfl, rfl⟩
    simpa [update, hg] using hmem
  · simp only [update, if_neg hg] at hmem
    rw [winCheck_entities] at hmem
    obtain ⟨hlen, hpt⟩ := foldl_updateEntityAt_listImmPres o dt s.players
      (buildBlockedTilesB s.entities [] none)
      (buildBlockedTilesB s.entities [EType.ENEMY_BASE] none)
      (List.range s.entities.length) s.entities
    have hl2 : e2 ∈ (List.range s.entities.length).foldl
        (updateEntityAt o dt s.players
          (buildBlockedTilesB s.entities [] none)
          (buildBlockedTilesB s.entities [EType.ENEMY_BASE] none))
        s.entities := by
      rcases sweep_kept_mem _ (s.players, ([] : List Entity)) e2 hmem
        with h1 | h1
      · exact absurd h1 (List.not_mem_nil e2)
      · exact h1
    obtain ⟨k, hk⟩ := List.get?_of_mem hl2
    have hklt : k < s.entities.length := by
      have h1 := (List.get?_eq_some.mp hk).1
      rw [hlen] at h1
      exact h1
    obtain ⟨e2', h2', himm⟩ := hpt k _ (List.get?_eq_get hklt)
    have he2 : e2' = e2 := by
      rw [hk] at h2'
      exact (Option.some.inj h2').symm
    subst he2
    refine ⟨s.entities.get ⟨k, hklt⟩, List.get_mem s.entities k hklt,
      himm.1.symm, himm.2.1.symm, ?_, ?_⟩
    · exact (himm.2.2 (fun h1 => hu (himm.2.1.trans h1))
        (fun h1 => hz (himm.2.1.trans h1))).1.symm
    · exact (himm.2.2 (fun h1 => hu (himm.2.1.trans h1))
        (fun h1 => hz (himm.2.1.trans h1))).2.symm

/-- A concrete wall entity for the C10 witness. -/
def c10Wall : Entity :=
  { id := "wall_w", type := EType.WALL, x := 5, y := 5, hp := 100,
    maxHp := 100, radius := 1/2, ownerId := "p1" }

/-- A live one-wall game state for the C10 witness. -/
def c10State : GameState :=
  { players := [], entities := [c10Wall], lastTick := 0, gameOver := false,
    winner := none, waveNumber := 0 }

/-- C10 witness: running a full tick on a live state containing one wall
keeps the wall, and the theorem recovers a pre-tick entity at the same
position. -/
theorem c10_witness :
    c10Wall ∈ (update witnessOracle 1 c10State).entities ∧
    c10Wall.type ≠ EType.UNIT ∧ c10Wall.type ≠ EType.ZOMBIE ∧
    ∃ e1 ∈ c10State.entities, e1.id = c10Wall.id ∧ e1.type = c10Wall.type ∧
      e1.x = c10Wall.x ∧ e1.y = c10Wall.y := by
  have hent : (update witnessOracle 1 c10State).entities = [c10Wall] := by
    with_unfolding_all rfl
  have hmem : c10Wall ∈ (update witnessOracle 1 c10State).entities := by
    rw [hent]
    exact List.mem_singleton_self c10Wall
  have hu : c10Wall.type ≠ EType.UNIT := by decide
  have hz : c10Wall.type ≠ EType.ZOMBIE := by decide
  exact ⟨hmem, hu, hz,
    c10_immobile_entities_fixed witnessOracle 1 c10State c10Wall hmem hu hz⟩

/-- Scaled g-value: every g-score the loop writes is a natural multiple of
`1/5` (the step costs are `1 = 5/5` and `7/5`), and `scal5` recovers that
multiple. -/
def scal5 (x : ℚ) : ℕ := (5 * x).num.toNat

/-- Scaled g-value of an optional g-score. -/
def scalOpt : Option ℚ → ℕ
  | none => 0
  | some g => scal5 g

/-- The tile universe the loop can ever assign a g-score to: the 64×64 grid
(every relaxed neighbour passes `inBounds`) plus the start tile (assigned
`0` before the loop). -/
def tileUniv (start : Tile) : Finset Tile :=
  insert start (Finset.Icc (0 : ℤ) 63 ×ˢ Finset.Icc (0 : ℤ) 63)

/-- First termination measure: number of universe tiles with no g-score. -/
def mu1 (start : Tile) (st : AStarState) : ℕ :=
  ((tileUniv start).filter (fun t => st.gScore t = none)).card

/-- Second termination measure: total of the scaled g-scores. -/
def mu2 (start : Tile) (st : AStarState) : ℕ :=
  Finset.sum (tileUniv start) (fun t => scalOpt (st.gScore t))

/-- Termination invariant of the A* state: every recorded g-score is a
natural multiple of `1/5`, and every `cameFrom` edge descends the g-score
by at least `1/5`. -/
structure TInv (st : AStarState) : Prop where
  g_nat : ∀ t g, st.gScore t = some g → ∃ k : ℕ, g = (k : ℚ) / 5
  came_desc : ∀ t p, st.cameFrom t = some p →
    ∃ gt gp, st.gScore t = some gt ∧ st.gScore p = some gp ∧ gp + 1/5 ≤ gt

lemma stepCost_cases (n : Tile) : stepCost n = 1 ∨ stepCost n = 7/5 := by
  unfold stepCost
  split
  · exact Or.inl rfl
  · exact Or.inr rfl

lemma scal5_natdiv (k : ℕ) : scal5 ((k : ℚ) / 5) = k := by
  unfold scal5
  have h : (5 : ℚ) * ((k : ℚ) / 5) = (k : ℚ) := by ring
  rw [h, Rat.num_natCast, Int.toNat_natCast]

lemma tile_mem_univ_of_inBounds {start t : Tile}
    (h : inBounds t.1 t.2 = true) : t ∈ tileUniv start := by
  simp only [inBounds, MAP_SIZE, Bool.and_eq_true, decide_eq_true_eq] at h
  rw [tileUniv, Finset.mem_insert]
  right
  rw [Finset.mem_product]
  constructor <;> rw [Finset.mem_Icc] <;> omega

/-- `expand_cases` enriched with what `doUpdate` saw: the relaxed neighbour
either had no g-score yet or its g-score strictly decreases. -/
lemma expand_cases_g (terrain : ℤ → ℤ → Bool) (blocked : Tile → Bool)
    (goal current : Tile) (st : AStarState) (n : Tile) :
    expandNeighbor terrain blocked goal current st n = st ∨
    ∃ gc : ℚ, st.gScore current = some gc ∧
      inBounds (current.1 + n.1) (current.2 + n.2) = true ∧
      (st.gScore (current.1 + n.1, current.2 + n.2) = none ∨
        ∃ prevG, st.gScore (current.1 + n.1, current.2 + n.2) = some prevG ∧
          gc + stepCost n < prevG) ∧
      expandNeighbor terrain blocked goal current st n =
        { openSet :=
            if st.openSet.any
                (fun o => o.1 = (current.1 + n.1, current.2 + n.2)) then
              st.openSet
            else st.openSet ++ [((current.1 + n.1, current.2 + n.2),
              gc + stepCost n +
                (manhattan (current.1 + n.1, current.2 + n.2) goal : ℚ))],
          cameFrom := fun t =>
            if t = (current.1 + n.1, current.2 + n.2) then some current
            else st.cameFrom t,
          gScore := fun t =>
            if t = (current.1 + n.1, current.2 + n.2) then
              some (gc + stepCost n)
            else st.gScore t } := by
  unfold expandNeighbor
  by_cases h1 : inBounds (current.1 + n.1) (current.2 + n.2) = false
  · left; rw [if_pos h1]
  · rw [if_neg h1]
    by_cases h2 : terrain (current.1 + n.1) (current.2 + n.2) = false
    · left; rw [if_pos h2]
    · rw [if_neg h2]
      by_cases h3 : (current.1 + n.1, current.2 + n.2) ≠ goal ∧
          blocked (current.1 + n.1, current.2 + n.2) = true
      · left; rw [if_pos h3]
      · rw [if_neg h3]
        rcases hgc : st.gScore current with _ | gc
        · left
          simp only [hgc]
        · simp only [hgc]
          rcases hprev : st.gScore (current.1 + n.1, current.2 + n.2)
            with _ | prevG
          · right
            refine ⟨gc, rfl, ?_, Or.inl rfl, ?_⟩
            · cases hb : inBounds (current.1 + n.1) (current.2 + n.2)
              · exact absurd hb h1
              · rfl
            · simp
          · by_cases h4 : gc + stepCost n < prevG
            · right
              refine ⟨gc, rfl, ?_, Or.inr ⟨prevG, rfl, h4⟩, ?_⟩
              · cases hb : inBounds (current.1 + n.1) (current.2 + n.2)
                · exact absurd hb h1
                · rfl
              · rw [if_pos (decide_eq_true h4)]
            · left
              rw [if_neg (by simpa using h4)]

lemma neighborOffsets_ne_zero : ∀ n ∈ neighborOffsets, n ≠ ((0 : ℤ), (0 : ℤ)) := by
  decide

lemma neighbor_ne_current (current n : Tile) (hn : n ∈ neighborOffsets) :
    (current.1 + n.1, current.2 + n.2) ≠ current := by
  intro h
  refine neighborOffsets_ne_zero n hn ?_
  have h1 : current.1 + n.1 = current.1 := congrArg Prod.fst h
  have h2 : current.2 + n.2 = current.2 := congrArg Prod.snd h
  have hn1 : n.1 = 0 := by omega
  have hn2 : n.2 = 0 := by omega
  exact Prod.ext hn1 hn2

lemma expand_preserves_tinv (terrain : ℤ → ℤ → Bool) (blocked : Tile → Bool)
    (goal current : Tile) (st : AStarState) (n : Tile)
    (hn : n ∈ neighborOffsets) (hinv : TInv st) :
    TInv (expandNeighbor terrain blocked goal current st n) := by
  rcases expand_cases_g terrain blocked goal current st n with
    heq | ⟨gc, hgc, hb, hdi, heq⟩
  · rw [heq]; exact hinv
  · rw [heq]
    have hne : current ≠ (current.1 + n.1, current.2 + n.2) :=
      fun h => neighbor_ne_current current n hn h.symm
    constructor
    · intro t g hg
      by_cases htn : t = (current.1 + n.1, current.2 + n.2)
      · subst htn
        simp only [if_pos rfl] at hg
        obtain ⟨k, hk⟩ := hinv.g_nat current gc hgc
        have hgv : g = gc + stepCost n := (Option.some.inj hg).symm
        rcases stepCost_cases n with hs | hs
        · exact ⟨k + 5, by rw [hgv, hk, hs]; push_cast; ring⟩
        · exact ⟨k + 7, by rw [hgv, hk, hs]; push_cast; ring⟩
      · simp only [if_neg htn] at hg
        exact hinv.g_nat t g hg
    · intro t p hcf
      by_cases htn : t = (current.1 + n.1, current.2 + n.2)
      · subst htn
        simp only [if_pos rfl] at hcf
        have hp : current = p := Option.some.inj hcf
        refine ⟨gc + stepCost n, gc, ?_, ?_, ?_⟩
        · simp
        · rw [← hp]
          simp only [if_neg hne]
          exact hgc
        · rcases stepCost_cases n with hs | hs <;> rw [hs] <;> norm_num
      · simp only [if_neg htn] at hcf
        obtain ⟨gt, gp, hgt, hgp, hle⟩ := hinv.came_desc t p hcf
        by_cases hpn : p = (current.1 + n.1, current.2 + n.2)
        · rcases hdi with hnone | ⟨prevG, hprev, hlt⟩
          · rw [← hpn] at hnone
            rw [hnone] at hgp
            exact absurd hgp (by simp)
          · rw [← hpn] at hprev
            have hpg : prevG = gp := by
              rw [hprev] at hgp
              exact Option.some.inj hgp
            refine ⟨gt, gc + stepCost n, ?_, ?_, ?_⟩
            · simp only [if_neg htn]
              exact hgt
            · simp only [if_pos hpn]
            · have hltg : gc + stepCost n < gp := hpg ▸ hlt
              linarith
        · refine ⟨gt, gp, ?_, ?_, hle⟩
          · simp only [if_neg htn]
            exact hgt
          · simp only [if_neg hpn]
            exact hgp

lemma expand_fold_preserves_tinv (terrain : ℤ → ℤ → Bool)
    (blocked : Tile → Bool) (goal current : Tile) :
    ∀ (ns : List Tile) (st : AStarState), (∀ n ∈ ns, n ∈ neighborOffsets) →
    TInv st →
    TInv (ns.foldl (expandNeighbor terrain blocked goal current) st) := by
  intro ns
  induction ns with
  | nil => exact fun st _ h => h
  | cons n rest ih =>
    intro st hns hinv
    simp only [List.foldl_cons]
    exact ih _ (fun m hm => hns m (List.mem_cons_of_mem _ hm))
      (expand_preserves_tinv terrain blocked goal current st n
        (hns n (List.mem_cons_self _ _)) hinv)

set_option maxRecDepth 8000

lemma mu1_update_fresh (start T : Tile) (g : Tile → Option ℚ) (v : ℚ)
    (hT : T ∈ tileUniv start) (hnone : g T = none) :
    ((tileUniv start).filter
        (fun t => (if t = T then some v else g t) = none)).card <
      ((tileUniv start).filter (fun t => g t = none)).card := by
  have hset : (tileUniv start).filter
      (fun t => (if t = T then some v else g t) = none) =
      ((tileUniv start).filter (fun t => g t = none)).erase T := by
    ext t
    simp only [Finset.mem_filter, Finset.mem_erase]
    constructor
    · rintro ⟨htu, hcond⟩
      by_cases ht : t = T
      · rw [if_pos ht] at hcond
        exact absurd hcond (by simp)
      · rw [if_neg ht] at hcond
        exact ⟨ht, htu, hcond⟩
    · rintro ⟨ht, htu, hcond⟩
      refine ⟨htu, ?_⟩
      rw [if_neg ht]
      exact hcond
  rw [hset]
  have hTF : T ∈ (tileUniv start).filter (fun t => g t = none) :=
    Finset.mem_filter.mpr ⟨hT, hnone⟩
  have hcard := Finset.card_erase_of_mem hTF
  have hpos : 0 < ((tileUniv start).filter (fun t => g t = none)).card :=
    Finset.card_pos.mpr ⟨T, hTF⟩
  omega

lemma mu1_update_some (start T : Tile) (g : Tile → Option ℚ) (v prevG : ℚ)
    (hprev : g T = some prevG) :
    ((tileUniv start).filter
        (fun t => (if t = T then some v else g t) = none)).card =
      ((tileUniv start).filter (fun t => g t = none)).card := by
  congr 1
  ext t
  simp only [Finset.mem_filter, and_congr_right_iff]
  intro htu
  by_cases ht : t = T
  · rw [if_pos ht, ht, hprev]
    simp
  · rw [if_neg ht]

lemma mu2_update_lt (start T : Tile) (g : Tile → Option ℚ) (v prevG : ℚ)
    (hT : T ∈ tileUniv start) (hprev : g T = some prevG)
    (kv kp : ℕ) (hkv : v = (kv : ℚ) / 5) (hkp : prevG = (kp : ℚ) / 5)
    (hlt : v < prevG) :
    Finset.sum (tileUniv start)
        (fun t => scalOpt (if t = T then some v else g t)) <
      Finset.sum (tileUniv start) (fun t => scalOpt (g t)) := by
  have hk5 : (kv : ℚ) < kp := by
    rw [hkv, hkp] at hlt
    linarith
  have hkn : kv < kp := by exact_mod_cast hk5
  apply Finset.sum_lt_sum
  · intro i hi
    by_cases ht : i = T
    · rw [if_pos ht, ht, hprev]
      simp only [scalOpt]
      rw [hkv, hkp, scal5_natdiv, scal5_natdiv]
      exact le_of_lt hkn
    · rw [if_neg ht]
  · refine ⟨T, hT, ?_⟩
    rw [if_pos rfl, hprev]
    simp only [scalOpt]
    rw [hkv, hkp, scal5_natdiv, scal5_natdiv]
    exact hkn

/-- Strict decrease of the lexicographic measure `(mu1, mu2)`. -/
def MLt (start : Tile) (st' st : AStarState) : Prop :=
  mu1 start st' < mu1 start st ∨
    (mu1 start st' = mu1 start st ∧ mu2 start st' < mu2 start st)

lemma MLt_trans {start : Tile} {s1 s2 s3 : AStarState}
    (h21 : MLt start s2 s1) (h32 : MLt start s3 s2) : MLt start s3 s1 := by
  rcases h21 with h21 | ⟨h21a, h21b⟩ <;> rcases h32 with h32 | ⟨h32a, h32b⟩
  · exact Or.inl (h32.trans h21)
  · exact Or.inl (lt_of_le_of_lt (le_of_eq h32a) h21)
  · exact Or.inl (lt_of_lt_of_le h32 (le_of_eq h21a))
  · exact Or.inr ⟨h32a.trans h21a, h32b.trans h21b⟩

lemma expand_measure (terrain : ℤ → ℤ → Bool) (blocked : Tile → Bool)
    (goal start current : Tile) (st : AStarState) (n : Tile)
    (hinv : TInv st) :
    expandNeighbor terrain blocked goal current st n = st ∨
    MLt start (expandNeighbor terrain blocked goal current st n) st := by
  rcases expand_cases_g terrain blocked goal current st n with
    heq | ⟨gc, hgc, hb, hdi, heq⟩
  · exact Or.inl heq
  · right
    rw [heq]
    have hT : ((current.1 + n.1, current.2 + n.2) : Tile) ∈ tileUniv start :=
      tile_mem_univ_of_inBounds hb
    rcases hdi with hnone | ⟨prevG, hprev, hlt⟩
    · exact Or.inl (mu1_update_fresh start _ st.gScore _ hT hnone)
    · refine Or.inr ⟨mu1_update_some start _ st.gScore _ prevG hprev, ?_⟩
      obtain ⟨kc, hkc⟩ := hinv.g_nat current gc hgc
      obtain ⟨kp, hkp⟩ := hinv.g_nat _ prevG hprev
      have hv : ∃ kv : ℕ, gc + stepCost n = (kv : ℚ) / 5 := by
        rcases stepCost_cases n with hs | hs
        · exact ⟨kc + 5, by rw [hkc, hs]; push_cast; ring⟩
        · exact ⟨kc + 7, by rw [hkc, hs]; push_cast; ring⟩
      obtain ⟨kv, hkv⟩ := hv
      exact mu2_update_lt start _ st.gScore _ prevG hT hprev kv kp hkv hkp hlt

lemma expand_fold_measure (terrain : ℤ → ℤ → Bool) (blocked : Tile → Bool)
    (goal start current : Tile) :
    ∀ (ns : List Tile) (st : AStarState), (∀ n ∈ ns, n ∈ neighborOffsets) →
    TInv st →
    (ns.foldl (expandNeighbor terrain blocked goal current) st = st ∨
      MLt start (ns.foldl (expandNeighbor terrain blocked goal current) st)
        st) := by
  intro ns
  induction ns with
  | nil => exact fun st _ _ => Or.inl rfl
  | cons n rest ih =>
    intro st hns hinv
    simp only [List.foldl_cons]
    have hinv1 : TInv (expandNeighbor terrain blocked goal current st n) :=
      expand_preserves_tinv terrain blocked goal current st n
        (hns n (List.mem_cons_self _ _)) hinv
    rcases expand_measure terrain blocked goal start current st n hinv with
      heq | hlt
    · rw [heq]
      exact ih st (fun m hm => hns m (List.mem_cons_of_mem _ hm)) hinv
    · rcases ih _ (fun m hm => hns m (List.mem_cons_of_mem _ hm)) hinv1 with
        heq2 | hlt2
      · rw [heq2]
        exact Or.inr hlt
      · exact Or.inr (MLt_trans hlt hlt2)

/-- The reconstruction loop terminates: `cameFrom` chains strictly descend
the g-score by at least `1/5` per edge, and g-scores are natural multiples
of `1/5`, so every chain is finite. -/
lemma reconstruct_term (cameFrom : Tile → Option Tile)
    (gScore : Tile → Option ℚ) (start : Tile)
    (hdesc : ∀ t p, cameFrom t = some p →
      ∃ gt gp, gScore t = some gt ∧ gScore p = some gp ∧ gp + 1/5 ≤ gt)
    (hnat : ∀ t g, gScore t = some g → ∃ k : ℕ, g = (k : ℚ) / 5) :
    ∀ cur, ∃ f0, ∀ f, f0 ≤ f → ∀ acc,
      reconstructPath cameFrom start f cur acc ≠ none := by
  have aux : ∀ k : ℕ, ∀ cur gt, gScore cur = some gt → scal5 gt = k →
      ∃ f0, ∀ f, f0 ≤ f → ∀ acc,
        reconstructPath cameFrom start f cur acc ≠ none := by
    intro k
    induction k using Nat.strong_induction_on with
    | _ k ih =>
      intro cur gt hgt hk
      rcases hcf : cameFrom cur with _ | p
      · refine ⟨1, fun f hf acc => ?_⟩
        cases f with
        | zero => omega
        | succ f' =>
          simp only [reconstructPath]
          by_cases hcs : cur = start
          · rw [if_pos hcs]
            simp
          · rw [if_neg hcs, hcf]
            simp
      · obtain ⟨gt', gp, hgt', hgp, hle⟩ := hdesc cur p hcf
        have hgte : gt' = gt := by
          rw [hgt] at hgt'
          exact (Option.some.inj hgt').symm
        subst hgte
        obtain ⟨kt, hkt⟩ := hnat cur gt' hgt
        obtain ⟨kp, hkp⟩ := hnat p gp hgp
        have hklt : kp < kt := by
          rw [hkt, hkp] at hle
          have h5 : (kp : ℚ) + 1 ≤ kt := by linarith
          exact_mod_cast h5
        have hkk : kt = k := by
          rw [hkt, scal5_natdiv] at hk
          exact hk
        obtain ⟨f0p, hf0p⟩ := ih (scal5 gp) (by rw [hkp, scal5_natdiv]; omega)
          p gp hgp rfl
        refine ⟨f0p + 1, fun f hf acc => ?_⟩
        cases f with
        | zero => omega
        | succ f' =>
          simp only [reconstructPath]
          by_cases hcs : cur = start
          · rw [if_pos hcs]
            simp
          · rw [if_neg hcs, hcf]
            exact hf0p f' (by omega) _
  intro cur
  rcases hcf : cameFrom cur with _ | p
  · refine ⟨1, fun f hf acc => ?_⟩
    cases f with
    | zero => omega
    | succ f' =>
      simp only [reconstructPath]
      by_cases hcs : cur = start
      · rw [if_pos hcs]
        simp
      · rw [if_neg hcs, hcf]
        simp
  · obtain ⟨gt, gp, hgt, hgp, hle⟩ := hdesc cur p hcf
    exact aux (scal5 gt) cur gt hgt rfl

/-- For every well-formed A* state there is a fuel budget under which the
main loop finishes (either exhausting the open set or returning a path). -/
lemma astarLoop_exists_fuel (terrain : ℤ → ℤ → Bool) (blocked : Tile → Bool)
    (goal start : Tile) :
    ∀ a b c st, TInv st → mu1 start st = a → mu2 start st = b →
      st.openSet.length = c →
      ∃ fuel, astarLoop terrain blocked goal start fuel st ≠ none := by
  intro a
  induction a using Nat.strong_induction_on with
  | _ a iha =>
  intro b
  induction b using Nat.strong_induction_on with
  | _ b ihb =>
  intro c
  induction c using Nat.strong_induction_on with
  | _ c ihc =>
  intro st hinv ha hb hc
  rcases hpop : popLowest st.openSet with _ | ⟨⟨current, fv⟩, rest⟩
  · refine ⟨1, ?_⟩
    simp [astarLoop, hpop]
  · by_cases hgoal : current = goal
    · obtain ⟨f0, hf0⟩ := reconstruct_term st.cameFrom st.gScore start
        hinv.came_desc hinv.g_nat current
      refine ⟨f0 + 1, ?_⟩
      simp only [astarLoop, hpop, if_pos hgoal]
      rcases hrec : reconstructPath st.cameFrom start (f0 + 1) current []
        with _ | p
      · exact absurd hrec (hf0 (f0 + 1) (Nat.le_succ f0) [])
      · simp
    · have hinv1 : TInv ({ st with openSet := rest } : AStarState) :=
        ⟨hinv.g_nat, hinv.came_desc⟩
      have hmu1r : mu1 start ({ st with openSet := rest } : AStarState) =
          mu1 start st := rfl
      have hmu2r : mu2 start ({ st with openSet := rest } : AStarState) =
          mu2 start st := rfl
      have hinv2 : TInv (neighborOffsets.foldl
          (expandNeighbor terrain blocked goal current)
          { st with openSet := rest }) :=
        expand_fold_preserves_tinv terrain blocked goal current
          neighborOffsets _ (fun _ hm => hm) hinv1
      have hlen : rest.length + 1 = st.openSet.length := popLowest_length hpop
      rcases expand_fold_measure terrain blocked goal start current
          neighborOffsets { st with openSet := rest } (fun _ hm => hm) hinv1
        with heq | hlt
      · obtain ⟨fuel2, h2⟩ := ihc rest.length (by omega)
          (neighborOffsets.foldl (expandNeighbor terrain blocked goal current)
            { st with openSet := rest })
          hinv2 (by rw [heq]; exact ha) (by rw [heq]; exact hb)
          (by rw [heq])
        refine ⟨fuel2 + 1, ?_⟩
        simp only [astarLoop, hpop, if_neg hgoal]
        exact h2
      · rcases hlt with hlt1 | ⟨hlt1, hlt2⟩
        · obtain ⟨fuel2, h2⟩ := iha (mu1 start
              (neighborOffsets.foldl (expandNeighbor terrain blocked goal
                current) { st with openSet := rest })) (by omega)
            (mu2 start (neighborOffsets.foldl (expandNeighbor terrain blocked
              goal current) { st with openSet := rest }))
            (neighborOffsets.foldl (expandNeighbor terrain blocked goal
              current) { st with openSet := rest }).openSet.length
            _ hinv2 rfl rfl rfl
          refine ⟨fuel2 + 1, ?_⟩
          simp only [astarLoop, hpop, if_neg hgoal]
          exact h2
        · obtain ⟨fuel2, h2⟩ := ihb (mu2 start
              (neighborOffsets.foldl (expandNeighbor terrain blocked goal
                current) { st with openSet := rest })) (by omega)
            (neighborOffsets.foldl (expandNeighbor terrain blocked goal
              current) { st with openSet := rest }).openSet.length
            _ hinv2 (by omega) rfl rfl
          refine ⟨fuel2 + 1, ?_⟩
          simp only [astarLoop, hpop, if_neg hgoal]
          exact h2

lemma astarInit_tinv (goal start : Tile) : TInv (astarInit goal start) := by
  constructor
  · intro t g hg
    by_cases ht : t = start
    · refine ⟨0, ?_⟩
      simp only [astarInit, if_pos ht] at hg
      simp [← Option.some.inj hg]
    · simp only [astarInit, if_neg ht] at hg
      exact absurd hg (by simp)
  · intro t p hcf
    exact absurd hcf (by simp [astarInit])

/-- C9: `findPath` terminates on every input — for all start and goal
coordinates, any terrain oracle and any blocked-tile set, some finite fuel
makes the embedded A* main loop finish (the open set cannot be refilled
indefinitely: a tile is re-relaxed only when its g-score strictly drops by
at least `1/5`, g-scores are natural multiples of `1/5`, and only the
finitely many in-bounds tiles plus the start tile ever carry one). -/
theorem c9_findPath_terminates (terrain : ℤ → ℤ → Bool)
    (blocked : Tile → Bool) (startX startY goalX goalY : ℚ) :
    ∃ fuel, (findPathFuel terrain blocked startX startY goalX goalY
      fuel).isSome := by
  obtain ⟨fuel, hf⟩ := astarLoop_exists_fuel terrain blocked
    (⌊goalX⌋, ⌊goalY⌋) (⌊startX⌋, ⌊startY⌋) _ _ _
    (astarInit (⌊goalX⌋, ⌊goalY⌋) (⌊startX⌋, ⌊startY⌋))
    (astarInit_tinv _ _) rfl rfl rfl
  refine ⟨fuel, ?_⟩
  rw [Option.isSome_iff_ne_none]
  exact hf

end WorldsEnd
